import Mathlib

/-!
# Shallow embedding of the GPTL region-timing core (src/gptl.c)

This file models the per-thread region-timing engine of GPTL: the region
registry (hash index plus insertion-ordered list), the call stack and parent
tracker, the start/stop hot paths (name-based and handle-based), the
call-tree constructor, the region queries, and the TSC clock-frequency
discovery.  Every mutable per-thread structure of the C code
(`timers[t]`, `hashtable[t]`, `callstack[t]`, `stackidx[t]`, ...) is indexed
by the thread `t` and is touched only by calls made on thread `t`, so the
embedding models the state of one fixed thread.  Linked lists become Lean
lists (`Timer *` pointers become indices into the insertion-ordered list),
C `double`/`float` values become `ℚ`, C `int` becomes `ℤ` where it can go
negative and `ℕ` elsewhere, and the wallclock and CPU time sources become
input streams `ℕ → ℚ` / `ℕ → ℤ` consumed one sample per read.
-/

namespace GPTL2P

/-- Constant `MAX_CHARS` from private.h: longest timer name allowed. -/
def MAX_CHARS : ℕ := 63

/-- Constant `MAX_STACK` from private.h: maximum allowed callstack depth. -/
def MAX_STACK : ℤ := 128

/-- Constant `DEFAULT_TABLE_SIZE` from gptl.c line 228. -/
def DEFAULT_TABLE_SIZE : ℕ := 1023

/-- Structure `Wallstats` from private.h.  `last` is the timestamp from the last start,
`accum` the accumulated time, `max`/`min` the extrema over start/stop pairs.
(C stores `max`/`min` as `float`; reals are modelled as `ℚ`.) -/
structure Wallstats where
  last : ℚ
  accum : ℚ
  max : ℚ
  min : ℚ
  deriving DecidableEq, Repr

/-- Structure `Cpustats` from private.h (user/system CPU ticks from `times`). -/
structure Cpustats where
  last_utime : ℤ
  last_stime : ℤ
  accum_utime : ℤ
  accum_stime : ℤ
  deriving DecidableEq, Repr

/-- Structure `Timer` from private.h, for one region on one thread.  The `next` pointer
is represented by adjacency in the state's `timers` list; `parent`,
`children` and `parent_count` hold indices into that list; the C fields
`nparent`/`nchildren` are the lengths of those lists; `address`/`num_desc`
(auto-instrumentation and printing only) are omitted. -/
structure Timer where
  name : List Char
  wall : Wallstats
  cpu : Cpustats
  count : ℕ
  nrecurse : ℕ
  recurselvl : ℕ
  norphan : ℕ
  parent : List ℕ
  parent_count : List ℕ
  children : List ℕ
  onflg : Bool
  deriving DecidableEq, Repr

/-- A `Timer` fresh from `memset (ptr, 0, sizeof (Timer))`. -/
def Timer.zero : Timer :=
  { name := [], wall := ⟨0, 0, 0, 0⟩, cpu := ⟨0, 0, 0, 0⟩, count := 0,
    nrecurse := 0, recurselvl := 0, norphan := 0, parent := [],
    parent_count := [], children := [], onflg := false }

instance : Inhabited Timer := ⟨Timer.zero⟩

/-- Error surface of the engine: each constructor stands for one
`GPTLerror` return site relevant to the modelled paths. -/
inductive GErr where
  | stackTooBig       -- "stack too big" (GPTLstart / GPTLstart_handle)
  | negativeStackidx  -- "called with negative stackidx" (update_parent_info)
  | unknownTimer      -- "timer for %s had not been started" (GPTLstop)
  | alreadyOff        -- "timer %s was already off" (stop paths)
  | badHandle         -- "bad input handle" (GPTLstop_handle)
  | depthNegative     -- "tree depth has become negative" (update_stats)
  | selfParent        -- "child %s can't be a parent of itself" (newchild)
  | loopDetected      -- "loop detected" (newchild)
  | cantGetFreq       -- "Can't get clock freq" (init_nanotime)
  deriving DecidableEq, Repr

/-- Result of one engine call: `0` becomes `.ok ()`, `-1` becomes `.error e`. -/
abbrev GResult := Except GErr Unit

/-- Configuration fixed before `GPTLinitialize` (global option block). -/
structure Config where
  disabled : Bool       -- GPTLdisable flag (default false)
  wall_enabled : Bool   -- wallstats.enabled (default true)
  cpu_enabled : Bool    -- cpustats.enabled (default false)
  depthlimit : ℤ        -- default 99999
  tablesize : ℕ         -- default DEFAULT_TABLE_SIZE

/-- The default option block of gptl.c. -/
def Config.default : Config :=
  { disabled := false, wall_enabled := true, cpu_enabled := false,
    depthlimit := 99999, tablesize := DEFAULT_TABLE_SIZE }

/-- The external time sources: the selected underlying wallclock timer
(`(*ptr2wtimefunc)()`) and the `times()`-based CPU clocks (`get_cpustamp`),
as streams consumed one sample per read. -/
structure Env where
  wtime : ℕ → ℚ
  cpu_usr : ℕ → ℤ
  cpu_sys : ℕ → ℤ

/-- The mutable per-thread state of gptl.c for one thread `t`:
`timers[t]` (insertion-ordered region list, head = sentinel),
`hashtable[t]` (bucket index to list of region indices, in append order),
`callstack[t]`, `stackidx[t].val`, `max_name_len[t]`, plus the positions
reached in the wallclock and CPU sample streams. -/
structure GState where
  timers : List Timer
  hashtable : ℕ → List ℕ
  callstack : ℕ → ℕ
  stackidx : ℤ
  max_name_len : ℕ
  wpos : ℕ
  cpos : ℕ

/-- Read region `i` (a `Timer *` dereference). -/
def GState.timer (s : GState) (i : ℕ) : Timer := s.timers.getD i default

/-- Mutate region `i` in place (a store through a `Timer *`). -/
def modT (s : GState) (i : ℕ) (f : Timer → Timer) : GState :=
  { s with timers := s.timers.set i (f (s.timer i)) }

/-- The hash computation of `getentry` (gptl.c lines 2970-2976): sum of byte
values times their 1-based position over the first `MAX_CHARS` characters,
modulo `tablesize`.  (C strings carry no NUL bytes internally, so the `*c`
loop bound is the name length.) -/
def genhashidx (ts : ℕ) (name : List Char) : ℕ :=
  (((name.take MAX_CHARS).enum.map (fun p => p.2.toNat * (p.1 + 1))).sum) % ts

/-- Function `getentry` (gptl.c lines 2961-2989): hash the name, then linearly search
the bucket for an entry whose stored name `STRMATCH`es the full query name
(`strcmp`).  Returns the index of the entry, or `none`. -/
def getentry (ts : ℕ) (ht : ℕ → List ℕ) (timers : List Timer)
    (name : List Char) : Option ℕ :=
  (ht (genhashidx ts name)).find? (fun i => (timers.getD i default).name == name)

/-- Function `update_ll_hash` (gptl.c lines 830-853): bump `max_name_len`, append the
new entry to the insertion-ordered list, and append its index to bucket
`indx`.  The new entry's index is the pre-append list length. -/
def update_ll_hash (s : GState) (ptr : Timer) (indx : ℕ) : GState :=
  { s with
    max_name_len := Max.max s.max_name_len ptr.name.length,
    timers := s.timers ++ [ptr],
    hashtable := fun j =>
      if j = indx then s.hashtable j ++ [s.timers.length] else s.hashtable j }

/-- Function `update_ptr` (gptl.c lines 864-883): set `onflg`, snapshot CPU times if
enabled, sample the wallclock into `wall.last` if enabled. -/
def update_ptr (cfg : Config) (env : Env) (i : ℕ) (s : GState) : GState :=
  let s := modT s i (fun tm => { tm with onflg := true })
  let s :=
    if cfg.cpu_enabled then
      { modT s i (fun tm => { tm with cpu :=
          { tm.cpu with last_utime := env.cpu_usr s.cpos,
                        last_stime := env.cpu_sys s.cpos } })
        with cpos := s.cpos + 1 }
    else s
  if cfg.wall_enabled then
    { modT s i (fun tm => { tm with wall :=
        { tm.wall with last := env.wtime s.wpos } })
      with wpos := s.wpos + 1 }
  else s

/-- Function `update_parent_info` (gptl.c lines 895-949): record this region at the
current stack position, then either bump `norphan` (empty stack above root),
bump the count of an already-known parent, or append a new parent with
count 1.  The parent is the stack element one below. -/
def update_parent_info (i : ℕ) (s : GState) : GState × GResult :=
  if s.stackidx < 0 then (s, .error .negativeStackidx)
  else
    let idx := s.stackidx.toNat
    let s := { s with callstack := fun j => if j = idx then i else s.callstack j }
    if idx = 0 then
      (modT s i (fun tm => { tm with norphan := tm.norphan + 1 }), .ok ())
    else
      let p := s.callstack (idx - 1)
      let tm := s.timer i
      match tm.parent.findIdx? (fun x => x == p) with
      | some n =>
        (modT s i (fun tm => { tm with
           parent_count := tm.parent_count.set n (tm.parent_count.getD n 0 + 1) }),
         .ok ())
      | none =>
        (modT s i (fun tm => { tm with
           parent := tm.parent ++ [p],
           parent_count := tm.parent_count ++ [1] }),
         .ok ())

/-- The shared tail of `GPTLstart`/`GPTLstart_handle` (gptl.c lines 706-731
and 787-816, textually identical there): unconditionally increment
`stackidx` and fail on overflow; create and intern a new entry (name
truncated to `MAX_CHARS`) when the lookup found none; update the parent
tracker; then `update_ptr`.  Also yields the entry's index, which
`GPTLstart_handle` caches in the handle on success. -/
def start_part3 (cfg : Config) (env : Env) (i : ℕ) (s : GState) :
    GState × GResult :=
  match update_parent_info i s with
  | (s, .error e) => (s, .error e)
  | (s, .ok _) => (update_ptr cfg env i s, .ok ())

/-- The stack bump and interning step shared by the start paths
(gptl.c lines 706-723 and 787-804). -/
def start_part2 (cfg : Config) (env : Env) (name : List Char)
    (optr : Option ℕ) (s : GState) : GState × GResult × ℕ :=
  let s := { s with stackidx := s.stackidx + 1 }
  if MAX_STACK - 1 < s.stackidx then (s, .error .stackTooBig, 0)
  else
    let (i, s) :=
      match optr with
      | some i => (i, s)
      | none =>
        let ptr : Timer := { Timer.zero with name := name.take MAX_CHARS }
        (s.timers.length, update_ll_hash s ptr (genhashidx cfg.tablesize name))
    let (s, r) := start_part3 cfg env i s
    (s, r, i)

/-- Function `GPTLstart` (gptl.c lines 666-732).  The state is post-`GPTLinitialize`
and the calling thread's slot is valid, so the `initialized` and
`get_thread_num` failure branches do not arise. -/
def GPTLstart (cfg : Config) (env : Env) (name : List Char) (s : GState) :
    GState × GResult :=
  if cfg.disabled then (s, .ok ())
  else if cfg.depthlimit ≤ s.stackidx then
    ({ s with stackidx := s.stackidx + 1 }, .ok ())
  else
    let optr := getentry cfg.tablesize s.hashtable s.timers name
    match optr with
    | some i =>
      if (s.timer i).onflg then
        (modT s i (fun tm => { tm with recurselvl := tm.recurselvl + 1 }), .ok ())
      else
        let (s, r, _) := start_part2 cfg env name optr s
        (s, r)
    | none =>
      let (s, r, _) := start_part2 cfg env name optr s
      (s, r)

/-- The caching step at the end of `GPTLstart_handle` (gptl.c lines
813-814): on success the handle keeps its old value or, when previously
null, receives the entry index. -/
def cacheUpd (h : Option ℕ) (i : ℕ) : GResult → Option ℕ
  | .ok _ => some (h.getD i)
  | .error _ => h

/-- Function `GPTLstart_handle` (gptl.c lines 743-817): like `GPTLstart` but the
lookup is skipped when the caller-held handle is already set, and the entry
index is cached into the handle when the call runs to completion with the
handle previously unset. -/
def GPTLstart_handle (cfg : Config) (env : Env) (name : List Char)
    (h : Option ℕ) (s : GState) : GState × GResult × Option ℕ :=
  if cfg.disabled then (s, .ok (), h)
  else if cfg.depthlimit ≤ s.stackidx then
    ({ s with stackidx := s.stackidx + 1 }, .ok (), h)
  else
    let optr :=
      match h with
      | some i => some i
      | none => getentry cfg.tablesize s.hashtable s.timers name
    match optr with
    | some i =>
      if (s.timer i).onflg then
        (modT s i (fun tm => { tm with recurselvl := tm.recurselvl + 1 }),
         .ok (), h)
      else
        let p2 := start_part2 cfg env name optr s
        (p2.1, p2.2.1, cacheUpd h p2.2.2 p2.2.1)
    | none =>
      let p2 := start_part2 cfg env name optr s
      (p2.1, p2.2.1, cacheUpd h p2.2.2 p2.2.1)

/-- Function `update_stats` (gptl.c lines 1169-1216): turn the timer off, pop the
stack (clamping and failing at depth `-1`), accumulate the wall delta and
extend min/max (first completed pair sets both), accumulate CPU deltas.
The negative-delta `fprintf` warning has no state effect. -/
def update_stats (cfg : Config) (i : ℕ) (tp1 : ℚ) (usr sys : ℤ)
    (s : GState) : GState × GResult :=
  let s := modT s i (fun tm => { tm with onflg := false })
  let s := { s with stackidx := s.stackidx - 1 }
  if s.stackidx < -1 then ({ s with stackidx := -1 }, .error .depthNegative)
  else
    let s :=
      if cfg.wall_enabled then
        modT s i (fun tm =>
          let delta := tp1 - tm.wall.last
          let w := { tm.wall with accum := tm.wall.accum + delta }
          let w :=
            if tm.count = 1 then { w with max := delta, min := delta }
            else { w with max := if w.max < delta then delta else w.max,
                          min := if delta < w.min then delta else w.min }
          { tm with wall := w })
      else s
    let s :=
      if cfg.cpu_enabled then
        modT s i (fun tm => { tm with cpu :=
          { last_utime := usr, last_stime := sys,
            accum_utime := tm.cpu.accum_utime + (usr - tm.cpu.last_utime),
            accum_stime := tm.cpu.accum_stime + (sys - tm.cpu.last_stime) } })
      else s
    (s, .ok ())

/-- The sampling prologue shared by the stop paths (gptl.c lines 1043-1050):
sample the wallclock and the CPU clocks before any lookup. -/
def stop_samples (cfg : Config) (env : Env) (s : GState) :
    ℚ × ℤ × ℤ × GState :=
  let (tp1, s) :=
    if cfg.wall_enabled then (env.wtime s.wpos, { s with wpos := s.wpos + 1 })
    else (0, s)
  let (usr, sys, s) :=
    if cfg.cpu_enabled then
      (env.cpu_usr s.cpos, env.cpu_sys s.cpos, { s with cpos := s.cpos + 1 })
    else (0, 0, s)
  (tp1, usr, sys, s)

/-- The shared tail of the stop paths (gptl.c lines 1067-1083): bump `count`;
on recursive re-entry bump `nrecurse`, drop `recurselvl` and return without
finalizing; otherwise `update_stats`. -/
def stop_part2 (cfg : Config) (i : ℕ) (tp1 : ℚ) (usr sys : ℤ)
    (s : GState) : GState × GResult :=
  let s := modT s i (fun tm => { tm with count := tm.count + 1 })
  if 0 < (s.timer i).recurselvl then
    (modT s i (fun tm => { tm with nrecurse := tm.nrecurse + 1,
                                   recurselvl := tm.recurselvl - 1 }), .ok ())
  else
    update_stats cfg i tp1 usr sys s

/-- The post-sampling body shared by the stop paths (gptl.c lines
1052-1083 and 1120-1153): if `stackidx` exceeds the depth limit, only pop
the stack; otherwise look the region up (the entry pointer `optr`, with
`enone` the error when it is missing), require it to be on, and run the
shared tail. -/
def stop_part1 (cfg : Config) (tp1 : ℚ) (usr sys : ℤ)
    (optr : Option ℕ) (enone : GErr) (s : GState) : GState × GResult :=
  if cfg.depthlimit < s.stackidx then
    ({ s with stackidx := s.stackidx - 1 }, .ok ())
  else
    match optr with
    | none => (s, .error enone)
    | some i =>
      if (s.timer i).onflg = false then (s, .error .alreadyOff)
      else stop_part2 cfg i tp1 usr sys s

/-- Function `GPTLstop` (gptl.c lines 1027-1084). -/
def GPTLstop (cfg : Config) (env : Env) (name : List Char) (s : GState) :
    GState × GResult :=
  if cfg.disabled then (s, .ok ())
  else
    let smp := stop_samples cfg env s
    let s := smp.2.2.2
    stop_part1 cfg smp.1 smp.2.1 smp.2.2.1
      (getentry cfg.tablesize s.hashtable s.timers name) .unknownTimer s

/-- Function `GPTLstop_handle` (gptl.c lines 1095-1154): like `GPTLstop` but the
entry comes from the handle, which must be set. -/
def GPTLstop_handle (cfg : Config) (env : Env) (h : Option ℕ) (s : GState) :
    GState × GResult :=
  if cfg.disabled then (s, .ok ())
  else
    let smp := stop_samples cfg env s
    stop_part1 cfg smp.1 smp.2.1 smp.2.2.1 h .badHandle smp.2.2.2

/-- The sentinel region made by `GPTLinitialize` (gptl.c lines 455-463):
named "GPTL_ROOT", `onflg` true, all other fields zero; it heads the
insertion-ordered list and sits at callstack position 0, and it is never
entered into the hash table. -/
def rootTimer : Timer :=
  { Timer.zero with name := "GPTL_ROOT".toList, onflg := true }

/-- The per-thread state right after `GPTLinitialize` (gptl.c lines
444-466): empty buckets, the sentinel at list head and stack position 0,
`stackidx` 0.  (C nulls `callstack[i]` for `i ≥ 1`; those slots are read
only after being written, so the placeholder value is immaterial.) -/
def initState : GState :=
  { timers := [rootTimer], hashtable := fun _ => [],
    callstack := fun _ => 0, stackidx := 0, max_name_len := 0,
    wpos := 0, cpos := 0 }

/-- One user call: `GPTLstart(name)` or `GPTLstop(name)`. -/
inductive Op where
  | start (name : List Char)
  | stop (name : List Char)
  deriving DecidableEq, Repr

/-- Execute one call. -/
def stepOp (cfg : Config) (env : Env) (op : Op) (s : GState) :
    GState × GResult :=
  match op with
  | .start name => GPTLstart cfg env name s
  | .stop name => GPTLstop cfg env name s

/-- Execute a call sequence from a given state, collecting the results. -/
def runFrom (cfg : Config) (env : Env) : GState → List Op →
    GState × List GResult
  | s, [] => (s, [])
  | s, op :: rest =>
    let st := stepOp cfg env op s
    let rst := runFrom cfg env st.1 rest
    (rst.1, st.2 :: rst.2)

/-- Execute a call sequence on a freshly initialized thread. -/
def run (cfg : Config) (env : Env) (ops : List Op) : GState × List GResult :=
  runFrom cfg env initState ops

/-! ## Region queries (GPTLget_nregions / GPTLget_regionname) -/

/-- Function `GPTLget_nregions` (gptl.c lines 2825-2851): count the linked list from
`timers[t]->next`, i.e. everything after the sentinel head. -/
def GPTLget_nregions (s : GState) : Except GErr ℕ :=
  .ok ((s.timers.drop 1).length)

/-- Function `GPTLget_regionname` (gptl.c lines 2864-2907): walk `region` steps from
`timers[t]->next`; error if the walk runs off the list; copy at most `nc`
characters of the entry's name. -/
def GPTLget_regionname (s : GState) (region : ℕ) (nc : ℕ) :
    Except GErr (List Char) :=
  match (s.timers.drop 1).get? region with
  | some tm => .ok (tm.name.take nc)
  | none => .error .unknownTimer

/-! ## Call-tree construction (construct_tree / newchild / is_descendant) -/

/-- The children array of node `i` (out-of-range reads see no children,
matching the fact that only list members have `children` storage). -/
def childrenOf (l : List Timer) (i : ℕ) : List ℕ :=
  (l.getD i default).children

/-- Function `is_descendant` (gptl.c lines 1904-1918): is `j` in the descendant list
of `i`?  Direct children are checked before recursing (breadth before
depth).  The C recursion carries no fuel; callers pass fuel `l.length`,
which is shown below to decide exactly reachability in one or more steps. -/
def isDesc (l : List Timer) : ℕ → ℕ → ℕ → Bool
  | 0, _, _ => false
  | fuel + 1, i, j =>
    (childrenOf l i).any (fun c => c == j) ||
    (childrenOf l i).any (fun c => isDesc l fuel c j)

/-- Function `newchild` (gptl.c lines 1840-1869): refuse a self edge, refuse an edge
whose proposed parent is already a descendant of the proposed child (loop
prevention), otherwise append the child to the parent's children array. -/
def newchild (l : List Timer) (p c : ℕ) : List Timer × GResult :=
  if p = c then (l, .error .selfParent)
  else if isDesc l l.length c p then (l, .error .loopDetected)
  else
    let tm := l.getD p default
    (l.set p { tm with children := tm.children ++ [c] }, .ok ())

/-- The four parent-selection policies (`Method` in gptl.h). -/
inductive Method where
  | first_parent
  | last_parent
  | most_frequent
  | full_tree
  deriving DecidableEq, Repr

/-- The `GPTLmost_frequent` scan of `construct_tree` (gptl.c lines
1785-1795): the parent with the greatest `parent_count`, earliest wins ties
(strict `>` against the running max), `none` when all counts are zero. -/
def mostFreqParent (parents counts : List ℕ) : Option ℕ :=
  ((parents.zip counts).foldl
    (fun (acc : Option ℕ × ℕ) pc =>
      if acc.2 < pc.2 then (some pc.1, pc.2) else acc)
    (none, 0)).1

/-- Function `construct_tree` (gptl.c lines 1757-1808): walk the insertion-ordered
list; for the node at hand propose parent edges according to the method;
`newchild` failures are ignored (`if (newchild (pptr, ptr) != 0);`), never
fatal.  `newchild` mutates only `children` arrays, so the `parent` and
`parent_count` arrays read from the evolving list equal those of the input
list. -/
def construct_tree (l : List Timer) (method : Method) : List Timer :=
  (List.range l.length).foldl
    (fun acc cur =>
      let tm := acc.getD cur default
      match method with
      | .first_parent =>
        match tm.parent with
        | [] => acc
        | p :: _ => (newchild acc p cur).1
      | .last_parent =>
        match tm.parent.getLast? with
        | none => acc
        | some p => (newchild acc p cur).1
      | .most_frequent =>
        match mostFreqParent tm.parent tm.parent_count with
        | none => acc
        | some p => (newchild acc p cur).1
      | .full_tree =>
        tm.parent.foldl (fun a p => (newchild a p cur).1) acc)
    l

/-- One child edge of the constructed tree: `j` is in `i`'s children array. -/
def edgeP (l : List Timer) (i j : ℕ) : Prop :=
  j ∈ childrenOf l i

instance (l : List Timer) (i j : ℕ) : Decidable (edgeP l i j) := by
  unfold edgeP; infer_instance

/-- The children relation has no cycle. -/
def Acyclic (l : List Timer) : Prop :=
  ∀ i, ¬ Relation.TransGen (edgeP l) i i

/-! ## TSC clock-frequency discovery (get_clockfreq / init_nanotime) -/

/-- The digit string to number conversion inside `atof`. -/
def parseDigits (l : List Char) : ℕ :=
  l.foldl (fun a c => 10 * a + (c.toNat - 48)) 0

/-- Model of C `atof` as used on the two frequency files: skip leading
whitespace, optional sign, integer digits, optional fractional digits.
(Exponent notation never occurs in those files and is not modelled.) -/
def atofQ (s : List Char) : ℚ :=
  let s := s.dropWhile (fun c => c == ' ' || c == '\t' || c == '\n' || c == '\r')
  let sgn : ℚ := if s.head? = some '-' then -1 else 1
  let s := if s.head? = some '-' || s.head? = some '+' then s.drop 1 else s
  let ds := s.takeWhile Char.isDigit
  let rest := s.dropWhile Char.isDigit
  let ip : ℚ := parseDigits ds
  let fp : ℚ :=
    match rest with
    | '.' :: r2 =>
      let fd := r2.takeWhile Char.isDigit
      (parseDigits fd : ℚ) / (10 : ℚ) ^ fd.length
    | _ => 0
  sgn * (ip + fp)

/-- The two files `get_clockfreq` reads: the first line of
`/sys/devices/system/cpu/cpu0/cpufreq/cpuinfo_max_freq` (`none` when the
file cannot be opened or yields no line) and the lines of `/proc/cpuinfo`
(`none` when it cannot be opened). -/
structure CpuFiles where
  max_freq_line : Option (List Char)
  cpuinfo : Option (List (List Char))

/-- The `/proc/cpuinfo` scan of `get_clockfreq` (gptl.c lines 3143-3153):
find a line whose first 7 characters are `cpu MHz`, scan from position 7
for a digit, and parse from there; lines with no digit are skipped; fall
through to `-1` when no line matches. -/
def cpuMHzScan : List (List Char) → ℚ
  | [] => -1
  | line :: rest =>
    if line.take 7 = "cpu MHz".toList then
      match (line.drop 7).dropWhile (fun c => ¬ c.isDigit) with
      | [] => cpuMHzScan rest
      | tail => atofQ tail
    else cpuMHzScan rest

/-- Function `get_clockfreq` (gptl.c lines 3105-3157): if the max_freq file yields a
line, return `0.001 * atof` of it unconditionally (KHz to MHz); otherwise
scan `/proc/cpuinfo` for `cpu MHz`; `-1` when nothing parses. -/
def get_clockfreq (f : CpuFiles) : ℚ :=
  match f.max_freq_line with
  | some line => (1 / 1000 : ℚ) * atofQ line
  | none =>
    match f.cpuinfo with
    | none => -1
    | some lines => cpuMHzScan lines

/-- Function `init_nanotime` (gptl.c lines 3165-3180): fail exactly when
`get_clockfreq` returns a negative value; otherwise accept the frequency. -/
def init_nanotime (f : CpuFiles) : Except GErr ℚ :=
  if get_clockfreq f < 0 then .error .cantGetFreq
  else .ok (get_clockfreq f)

/-! ## Timer-level views of the engine updates

The start and stop paths mutate the addressed `Timer` through several
consecutive stores.  The following functions package each path's net effect
on that one timer; they are proved below to agree with the step functions
and are the units the invariant proofs reason about. -/

/-- Net effect of `update_parent_info` on the child timer when the parent
slot is a real region (stack position above 0): bump a known parent's
count, or append a new parent with count 1. -/
def parentApply (p : ℕ) (tm : Timer) : Timer :=
  match tm.parent.findIdx? (fun x => x == p) with
  | some n =>
    { tm with parent_count := tm.parent_count.set n (tm.parent_count.getD n 0 + 1) }
  | none =>
    { tm with parent := tm.parent ++ [p], parent_count := tm.parent_count ++ [1] }

/-- Net effect of `update_ptr` on the timer: set `onflg`, snapshot the CPU
clocks at stream position `cp`, sample the wallclock at stream position
`wp` into `wall.last`. -/
def startFinish (cfg : Config) (env : Env) (wp cp : ℕ) (tm : Timer) : Timer :=
  let tm := { tm with onflg := true }
  let tm :=
    if cfg.cpu_enabled then
      { tm with cpu := { tm.cpu with last_utime := env.cpu_usr cp,
                                     last_stime := env.cpu_sys cp } }
    else tm
  if cfg.wall_enabled then
    { tm with wall := { tm.wall with last := env.wtime wp } }
  else tm

/-- Net effect of the wallclock part of `update_stats` on the timer. -/
def wallApply (tp1 : ℚ) (tm : Timer) : Timer :=
  let delta := tp1 - tm.wall.last
  let w := { tm.wall with accum := tm.wall.accum + delta }
  let w :=
    if tm.count = 1 then { w with max := delta, min := delta }
    else { w with max := if w.max < delta then delta else w.max,
                  min := if delta < w.min then delta else w.min }
  { tm with wall := w }

/-- Net effect of the CPU part of `update_stats` on the timer. -/
def cpuApply (usr sys : ℤ) (tm : Timer) : Timer :=
  { tm with cpu := { last_utime := usr, last_stime := sys,
                     accum_utime := tm.cpu.accum_utime + (usr - tm.cpu.last_utime),
                     accum_stime := tm.cpu.accum_stime + (sys - tm.cpu.last_stime) } }

/-- Net effect of a successful non-recursive stop (`stop_part2` through
`update_stats`) on the timer. -/
def stopFinish (cfg : Config) (tp1 : ℚ) (usr sys : ℤ) (tm : Timer) : Timer :=
  let tm := { tm with count := tm.count + 1 }
  let tm := { tm with onflg := false }
  let tm := if cfg.wall_enabled then wallApply tp1 tm else tm
  if cfg.cpu_enabled then cpuApply usr sys tm else tm

/-! ## Engine invariants (claims C2, C3, C10) -/

/-- Sum of the per-parent invocation counts of a region. -/
def psum (tm : Timer) : ℕ := tm.parent_count.sum

/-- Invariant of one user region on one thread, at wallclock stream
position `wp`:
* `count ≥ nrecurse`;
* `0 ≤ min ≤ max ≤ accum` for the wallclock statistics;
* while the region is on (and wall stats are enabled), the stored start
  timestamp is no later than the next sample the clock will deliver;
* the recorded parents are pairwise distinct, each with a positive count,
  and the two parent arrays have equal length;
* the parent counts plus `norphan` account for every non-recursive start:
  they exceed the non-recursive stops (`count - nrecurse`) by exactly one
  while the region is on. -/
def RegionInv (cfg : Config) (env : Env) (wp : ℕ) (tm : Timer) : Prop :=
  tm.nrecurse ≤ tm.count ∧
  0 ≤ tm.wall.min ∧ tm.wall.min ≤ tm.wall.max ∧ tm.wall.max ≤ tm.wall.accum ∧
  (cfg.wall_enabled = true → tm.onflg = true → tm.wall.last ≤ env.wtime wp) ∧
  tm.parent.Nodup ∧
  tm.parent_count.length = tm.parent.length ∧
  (∀ c ∈ tm.parent_count, 1 ≤ c) ∧
  psum tm + tm.norphan + tm.nrecurse = tm.count + (if tm.onflg = true then 1 else 0)

/-- Invariant of the whole per-thread state: the sentinel heads the
insertion-ordered list with its initial contents, every region after it
satisfies `RegionInv`, and every hash bucket holds only indices of
non-sentinel list members. -/
def StateInv (cfg : Config) (env : Env) (s : GState) : Prop :=
  (∃ rest, s.timers = rootTimer :: rest ∧
    ∀ tm ∈ rest, RegionInv cfg env s.wpos tm) ∧
  (∀ b i, i ∈ s.hashtable b → 1 ≤ i ∧ i < s.timers.length)

/-! ## Concrete material for witnesses and counterexamples -/

instance : DecidableEq GResult
  | .ok (), .ok () => isTrue rfl
  | .ok (), .error _ => isFalse (by simp)
  | .error _, .ok () => isFalse (by simp)
  | .error a, .error b =>
    if h : a = b then isTrue (by rw [h]) else isFalse (by simp [h])

/-- Concrete sample streams for witness runs: the clocks read `n` at sample
position `n` (written with core constructors so that kernel reduction can
evaluate whole runs). -/
def envId : Env :=
  { wtime := fun n => mkRat (Int.ofNat n) 1,
    cpu_usr := fun n => Int.ofNat n,
    cpu_sys := fun n => Int.ofNat n }

/-- The region name used in the recursion scenario (claim C1). -/
def rName : List Char := ['R']

/-- The region entry for `rName` while it is on, as it evolves during the
`k` nested starts and the matching stops: started once under the sentinel
(`parent = [0]`), with `cnt` completed stops, `nrec` recursive stops and
recursion level `rl` still open. -/
def midT (env : Env) (cnt nrec rl : ℕ) : Timer :=
  { name := rName,
    wall := { last := env.wtime 0, accum := 0, max := 0, min := 0 },
    cpu := { last_utime := 0, last_stime := 0, accum_utime := 0,
             accum_stime := 0 },
    count := cnt, nrecurse := nrec, recurselvl := rl, norphan := 0,
    parent := [0], parent_count := [1], children := [], onflg := true }

/-- The per-thread state during the recursion scenario of claim C1: the
sentinel plus the single region `rName` (hash bucket 82), open at stack
position 1, with `wp` wallclock samples taken so far. -/
def midS (env : Env) (cnt nrec rl wp : ℕ) : GState :=
  { timers := [rootTimer, midT env cnt nrec rl],
    hashtable := fun j => if j = 82 then [1] else [],
    callstack := fun j => if j = 1 then 1 else 0,
    stackidx := 1, max_name_len := 1, wpos := wp, cpos := 0 }

/-- The region entry of the recursion scenario after the final stop, with
`c + 2` total starts and the final sample `tp1`. -/
def finT (env : Env) (c : ℕ) (tp1 : ℚ) : Timer :=
  stopFinish Config.default tp1 0 0 (midT env (c + 1) (c + 1) 0)

/-- The per-thread state of the recursion scenario after the final stop. -/
def finS (env : Env) (c wp : ℕ) : GState :=
  { timers := [rootTimer, finT env c (env.wtime wp)],
    hashtable := fun j => if j = 82 then [1] else [],
    callstack := fun j => if j = 1 then 1 else 0,
    stackidx := 0, max_name_len := 1, wpos := wp + 1, cpos := 0 }

/-! ## The handle-based call machine (claim C8) -/

/-- The user-side handle store: one cached `void *handle` per region name,
`none` before the first successful start caches the entry index. -/
def HMap : Type := List Char → Option ℕ

/-- The name carried by a call. -/
def Op.opname : Op → List Char
  | .start n => n
  | .stop n => n

/-- One user call through the handle API: `GPTLstart_handle(name, &h)` or
`GPTLstop_handle(name, &h)`, where `h` is the stored handle for `name`. -/
def stepOpH (cfg : Config) (env : Env) (op : Op) (s : GState)
    (hmap : HMap) : (GState × HMap) × GResult :=
  match op with
  | .start name =>
    let r := GPTLstart_handle cfg env name (hmap name) s
    ((r.1, fun nm => if nm = name then r.2.2 else hmap nm), r.2.1)
  | .stop name =>
    let r := GPTLstop_handle cfg env (hmap name) s
    ((r.1, hmap), r.2)

/-- Execute a call sequence through the handle API. -/
def runFromH (cfg : Config) (env : Env) : GState × HMap → List Op →
    (GState × HMap) × List GResult
  | p, [] => (p, [])
  | p, op :: rest =>
    let st := stepOpH cfg env op p.1 p.2
    let rst := runFromH cfg env st.1 rest
    (rst.1, st.2 :: rst.2)

/-- Execute a call sequence through the handle API on a freshly initialized
thread, all handles initially null. -/
def runH (cfg : Config) (env : Env) (ops : List Op) :
    (GState × HMap) × List GResult :=
  runFromH cfg env (initState, fun _ => none) ops

/-- Correctness of the handle store against the state: every cached handle
is the entry `getentry` would find for that name, and every currently-on
region is cached under its name. -/
def HInv (cfg : Config) (s : GState) (hmap : HMap) : Prop :=
  ∀ nm i,
    (hmap nm = some i →
      getentry cfg.tablesize s.hashtable s.timers nm = some i) ∧
    (getentry cfg.tablesize s.hashtable s.timers nm = some i →
      (s.timer i).onflg = true → hmap nm = some i)

/-- The two states agree on everything `getentry` reads: the hash buckets
and the stored names (pointwise, including out-of-range reads). -/
def CoreEq (s s' : GState) : Prop :=
  (∀ b, s'.hashtable b = s.hashtable b) ∧
  (∀ j, (s'.timers.getD j default).name = (s.timers.getD j default).name)

/-! ## Auxiliary predicates for claims C5 and C10 -/

/-- The later state extends the earlier one: the region list only grows and
stored region names never change. -/
def NamesExt (s s' : GState) : Prop :=
  s.timers.length ≤ s'.timers.length ∧
  ∀ i, i < s.timers.length →
    (s'.timers.getD i default).name = (s.timers.getD i default).name

/-- A nonempty edge path from `i` to `j` through the intermediate nodes
`vs`, in order. -/
def isPath (l : List Timer) : ℕ → List ℕ → ℕ → Prop
  | i, [], j => edgeP l i j
  | i, v :: vs, j => edgeP l i v ∧ isPath l v vs j

/-- The call sequence of the claim-C5 counterexample: region C is started
only in positions where the would-be tree edges are rejected or absent, so
the constructed full_tree leaves it unreachable from the sentinel. -/
def ops5 : List Op :=
  [Op.start ['A'], Op.stop ['A'], Op.start ['A'], Op.start ['B'],
   Op.start ['C'], Op.stop ['C'], Op.stop ['B'], Op.stop ['A'],
   Op.start ['B'], Op.start ['C'], Op.start ['A'], Op.stop ['A'],
   Op.stop ['C'], Op.stop ['B']]

/-- The per-thread region list that `ops5` produces (checked below against
the run), written out so that the tree construction can be evaluated
without re-running the engine at every node access. -/
def tr5 : List Timer :=
  [rootTimer,
   { name := ['A'],
     wall := { last := 10, accum := 7, max := 5, min := 1 },
     cpu := { last_utime := 0, last_stime := 0, accum_utime := 0,
              accum_stime := 0 },
     count := 3, nrecurse := 0, recurselvl := 0, norphan := 0,
     parent := [0, 3], parent_count := [2, 1], children := [],
     onflg := false },
   { name := ['B'],
     wall := { last := 8, accum := 8, max := 5, min := 3 },
     cpu := { last_utime := 0, last_stime := 0, accum_utime := 0,
              accum_stime := 0 },
     count := 2, nrecurse := 0, recurselvl := 0, norphan := 0,
     parent := [1, 0], parent_count := [1, 1], children := [],
     onflg := false },
   { name := ['C'],
     wall := { last := 9, accum := 4, max := 3, min := 1 },
     cpu := { last_utime := 0, last_stime := 0, accum_utime := 0,
              accum_stime := 0 },
     count := 2, nrecurse := 0, recurselvl := 0, norphan := 0,
     parent := [2], parent_count := [2], children := [],
     onflg := false }]

/-! ### Agreement of the step functions with their timer-level views -/

theorem modT_timers (s : GState) (i : ℕ) (f : Timer → Timer) :
    (modT s i f).timers = s.timers.set i (f (s.timer i)) := rfl

theorem modT_hashtable (s : GState) (i : ℕ) (f : Timer → Timer) :
    (modT s i f).hashtable = s.hashtable := rfl

theorem modT_wpos (s : GState) (i : ℕ) (f : Timer → Timer) :
    (modT s i f).wpos = s.wpos := rfl

theorem modT_cpos (s : GState) (i : ℕ) (f : Timer → Timer) :
    (modT s i f).cpos = s.cpos := rfl

theorem modT_stackidx (s : GState) (i : ℕ) (f : Timer → Timer) :
    (modT s i f).stackidx = s.stackidx := rfl

theorem modT_callstack (s : GState) (i : ℕ) (f : Timer → Timer) :
    (modT s i f).callstack = s.callstack := rfl

theorem timer_modT_self (s : GState) (i : ℕ) (f : Timer → Timer)
    (hi : i < s.timers.length) : (modT s i f).timer i = f (s.timer i) := by
  simp [modT, GState.timer, List.getD, List.getElem?_set, hi]

theorem modT_modT (s : GState) (i : ℕ) (f g : Timer → Timer) :
    modT (modT s i f) i g = modT s i (fun tm => g (f tm)) := by
  unfold modT GState.timer
  by_cases hi : i < s.timers.length
  · simp [List.getD, List.getElem?_set, hi]
  · have hle : s.timers.length ≤ i := by omega
    simp [List.set_eq_of_length_le hle]

theorem modT_set_cpos (s : GState) (v : ℕ) (i : ℕ) (f : Timer → Timer) :
    modT { s with cpos := v } i f = { modT s i f with cpos := v } := rfl

theorem modT_set_wpos (s : GState) (v : ℕ) (i : ℕ) (f : Timer → Timer) :
    modT { s with wpos := v } i f = { modT s i f with wpos := v } := rfl

theorem modT_set_stackidx (s : GState) (v : ℤ) (i : ℕ) (f : Timer → Timer) :
    modT { s with stackidx := v } i f = { modT s i f with stackidx := v } := rfl

theorem modT_set_callstack (s : GState) (v : ℕ → ℕ) (i : ℕ) (f : Timer → Timer) :
    modT { s with callstack := v } i f = { modT s i f with callstack := v } := rfl

theorem update_ptr_eq (cfg : Config) (env : Env) (i : ℕ) (s : GState) :
    update_ptr cfg env i s =
      { modT s i (fun tm => startFinish cfg env s.wpos s.cpos tm) with
        wpos := s.wpos + (if cfg.wall_enabled = true then 1 else 0),
        cpos := s.cpos + (if cfg.cpu_enabled = true then 1 else 0) } := by
  by_cases hc : cfg.cpu_enabled <;> by_cases hw : cfg.wall_enabled
  · simp only [update_ptr, hc, hw, ite_true]
    rw [modT_set_cpos, modT_modT, modT_modT]
    simp only [modT_cpos, modT_wpos, startFinish, hc, hw, ite_true]
  · simp only [update_ptr, hc, hw, ite_true, Bool.false_eq_true, ite_false]
    rw [modT_modT]
    simp only [modT_cpos, modT_wpos, startFinish, hc, hw, ite_true,
      Bool.false_eq_true, ite_false, Nat.add_zero]
  · simp only [update_ptr, hc, hw, ite_true, Bool.false_eq_true, ite_false]
    rw [modT_modT]
    simp only [modT_cpos, modT_wpos, startFinish, hc, hw, ite_true,
      Bool.false_eq_true, ite_false, Nat.add_zero]
  · simp only [update_ptr, hc, hw, Bool.false_eq_true, ite_false]
    simp only [modT_cpos, modT_wpos, startFinish, hc, hw, Bool.false_eq_true,
      ite_false, Nat.add_zero]
    rfl

theorem update_parent_info_neg (i : ℕ) (s : GState) (h : s.stackidx < 0) :
    update_parent_info i s = (s, .error .negativeStackidx) := by
  simp [update_parent_info, h]

theorem update_parent_info_zero (i : ℕ) (s : GState) (h : s.stackidx = 0) :
    update_parent_info i s =
      (modT { s with callstack := fun j => if j = 0 then i else s.callstack j }
         i (fun tm => { tm with norphan := tm.norphan + 1 }), .ok ()) := by
  simp [update_parent_info, h]

theorem update_parent_info_pos (i : ℕ) (s : GState) (h : 0 < s.stackidx) :
    update_parent_info i s =
      (modT { s with
          callstack := fun j => if j = s.stackidx.toNat then i else s.callstack j }
         i (parentApply (s.callstack (s.stackidx.toNat - 1))), .ok ()) := by
  have h0 : ¬ s.stackidx < 0 := by omega
  have h1 : s.stackidx.toNat ≠ 0 := by omega
  have h2 : s.stackidx.toNat - 1 ≠ s.stackidx.toNat := by omega
  simp only [update_parent_info, h0, if_false, h1, if_neg h2]
  split <;> rename_i hfind <;> unfold modT parentApply <;> rw [hfind]

theorem update_stats_ok (cfg : Config) (i : ℕ) (tp1 : ℚ) (usr sys : ℤ)
    (s : GState) (h : ¬ s.stackidx - 1 < -1) :
    update_stats cfg i tp1 usr sys s =
      ({ modT s i (fun tm =>
           let tm := { tm with onflg := false }
           let tm := if cfg.wall_enabled = true then wallApply tp1 tm else tm
           if cfg.cpu_enabled = true then cpuApply usr sys tm else tm)
         with stackidx := s.stackidx - 1 }, .ok ()) := by
  by_cases hc : cfg.cpu_enabled <;> by_cases hw : cfg.wall_enabled <;>
    simp only [update_stats, modT_stackidx, if_neg h, hc, hw, ite_true,
      Bool.false_eq_true, ite_false] <;>
    simp only [modT_set_stackidx, modT_modT] <;>
    simp only [wallApply, cpuApply]

theorem stop_part2_rec (cfg : Config) (i : ℕ) (tp1 : ℚ) (usr sys : ℤ)
    (s : GState) (hi : i < s.timers.length)
    (hrec : 0 < (s.timer i).recurselvl) :
    stop_part2 cfg i tp1 usr sys s =
      (modT s i (fun tm => { tm with count := tm.count + 1,
                                     nrecurse := tm.nrecurse + 1,
                                     recurselvl := tm.recurselvl - 1 }), .ok ()) := by
  have hread : (modT s i (fun tm => { tm with count := tm.count + 1 })).timer i
      = { s.timer i with count := (s.timer i).count + 1 } :=
    timer_modT_self s i _ hi
  simp only [stop_part2, hread]
  rw [if_pos hrec, modT_modT]

theorem stop_part2_final (cfg : Config) (i : ℕ) (tp1 : ℚ) (usr sys : ℤ)
    (s : GState) (hi : i < s.timers.length)
    (hrec : (s.timer i).recurselvl = 0) (h : ¬ s.stackidx - 1 < -1) :
    stop_part2 cfg i tp1 usr sys s =
      ({ modT s i (fun tm => stopFinish cfg tp1 usr sys tm) with
         stackidx := s.stackidx - 1 }, .ok ()) := by
  have hread : (modT s i (fun tm => { tm with count := tm.count + 1 })).timer i
      = { s.timer i with count := (s.timer i).count + 1 } :=
    timer_modT_self s i _ hi
  have hnrec : ¬ 0 < (s.timer i).recurselvl := by omega
  have h1 : ¬ (modT s i (fun tm =>
      { tm with count := tm.count + 1 })).stackidx - 1 < -1 := h
  simp only [stop_part2, hread]
  rw [if_neg hnrec, update_stats_ok cfg i tp1 usr sys _ h1, modT_modT]
  simp only [stopFinish, modT_stackidx]

/-! ### Preservation of the per-region invariant by the timer updates -/

theorem regionInv_mono_wp {cfg : Config} {env : Env} {wp wp' : ℕ} {tm : Timer}
    (hm : Monotone env.wtime) (h : wp ≤ wp')
    (hr : RegionInv cfg env wp tm) : RegionInv cfg env wp' tm := by
  obtain ⟨h1, h2, h3, h4, h5, h6, h7, h8, h9⟩ := hr
  exact ⟨h1, h2, h3, h4, fun hw hon => (h5 hw hon).trans (hm h), h6, h7, h8, h9⟩

theorem regionInv_zero_name (cfg : Config) (env : Env) (wp : ℕ) (nm : List Char) :
    RegionInv cfg env wp { Timer.zero with name := nm } := by
  unfold RegionInv Timer.zero psum
  simp

theorem sum_set_add_one (l : List ℕ) (n : ℕ) (h : n < l.length) :
    (l.set n (l.getD n 0 + 1)).sum = l.sum + 1 := by
  induction l generalizing n with
  | nil => simp at h
  | cons a l ih =>
    cases n with
    | zero => simp [List.getD]; omega
    | succ n =>
      have hd : (a :: l).getD (n + 1) 0 = l.getD n 0 := by
        simp [List.getD]
      have hs : (a :: l).set (n + 1) ((a :: l).getD (n + 1) 0 + 1)
          = a :: l.set n ((a :: l).getD (n + 1) 0 + 1) := rfl
      rw [hs, hd, List.sum_cons, List.sum_cons, ih n (by simpa using h)]
      omega

theorem mem_set_pos (l : List ℕ) (n v : ℕ) (hv : 1 ≤ v)
    (hall : ∀ c ∈ l, 1 ≤ c) : ∀ c ∈ l.set n v, 1 ≤ c := by
  intro c hc
  rcases List.mem_or_eq_of_mem_set hc with h | h
  · exact hall c h
  · omega

/-- Effect of `parentApply` on the parent-tracking components of the
region invariant. -/
theorem parentApply_spec (p : ℕ) (tm : Timer)
    (hlen : tm.parent_count.length = tm.parent.length) :
    ((parentApply p tm).parent.Nodup ↔ tm.parent.Nodup) ∧
    (parentApply p tm).parent_count.length = (parentApply p tm).parent.length ∧
    ((∀ c ∈ tm.parent_count, 1 ≤ c) →
      ∀ c ∈ (parentApply p tm).parent_count, 1 ≤ c) ∧
    psum (parentApply p tm) = psum tm + 1 := by
  unfold parentApply
  cases hfind : tm.parent.findIdx? (fun x => x == p) with
  | some n =>
    have hn : n < tm.parent.length :=
      (List.findIdx?_eq_some_iff_findIdx_eq.mp hfind).1
    have hn' : n < tm.parent_count.length := by omega
    refine ⟨by simp, by simp [hlen], ?_, ?_⟩
    · intro hall
      exact mem_set_pos _ n _ (by omega) hall
    · simp only [psum]
      exact sum_set_add_one _ n hn'
  | none =>
    have hnotmem : ¬ p ∈ tm.parent := by
      intro hmem
      have := List.findIdx?_eq_none_iff.mp hfind p hmem
      simp at this
    refine ⟨?_, by simp [hlen], ?_, ?_⟩
    · simp [List.nodup_append, hnotmem]
    · intro hall c hc
      simp only [List.mem_append, List.mem_singleton] at hc
      rcases hc with h | h
      · exact hall c h
      · omega
    · simp [psum]

/-- Fields of `parentApply` other than the parent arrays are untouched. -/
theorem parentApply_fields (p : ℕ) (tm : Timer) :
    (parentApply p tm).count = tm.count ∧
    (parentApply p tm).nrecurse = tm.nrecurse ∧
    (parentApply p tm).norphan = tm.norphan ∧
    (parentApply p tm).wall = tm.wall ∧
    (parentApply p tm).onflg = tm.onflg := by
  unfold parentApply
  cases tm.parent.findIdx? (fun x => x == p) <;> simp

/-- Fields of `startFinish`: the region is turned on, the wallclock start
stamp is sampled when enabled, and nothing else that the invariant reads
changes. -/
theorem startFinish_fields (cfg : Config) (env : Env) (wpS cp : ℕ) (tm : Timer) :
    (startFinish cfg env wpS cp tm).count = tm.count ∧
    (startFinish cfg env wpS cp tm).nrecurse = tm.nrecurse ∧
    (startFinish cfg env wpS cp tm).norphan = tm.norphan ∧
    (startFinish cfg env wpS cp tm).parent = tm.parent ∧
    (startFinish cfg env wpS cp tm).parent_count = tm.parent_count ∧
    (startFinish cfg env wpS cp tm).onflg = true ∧
    (startFinish cfg env wpS cp tm).wall.accum = tm.wall.accum ∧
    (startFinish cfg env wpS cp tm).wall.max = tm.wall.max ∧
    (startFinish cfg env wpS cp tm).wall.min = tm.wall.min ∧
    (cfg.wall_enabled = true →
      (startFinish cfg env wpS cp tm).wall.last = env.wtime wpS) := by
  by_cases hc : cfg.cpu_enabled <;> by_cases hw : cfg.wall_enabled <;>
    simp [startFinish, hc, hw]

/-- A timer satisfying the off-state invariant equation satisfies the
region invariant after `startFinish`. -/
theorem regionInv_startFinish {cfg : Config} {env : Env} {wp' wpS cp : ℕ}
    {tm : Timer} (hm : Monotone env.wtime) (hwpS : wpS ≤ wp')
    (h1 : tm.nrecurse ≤ tm.count)
    (h2 : 0 ≤ tm.wall.min) (h3 : tm.wall.min ≤ tm.wall.max)
    (h4 : tm.wall.max ≤ tm.wall.accum)
    (h6 : tm.parent.Nodup)
    (h7 : tm.parent_count.length = tm.parent.length)
    (h8 : ∀ c ∈ tm.parent_count, 1 ≤ c)
    (h9 : psum tm + tm.norphan + tm.nrecurse = tm.count + 1) :
    RegionInv cfg env wp' (startFinish cfg env wpS cp tm) := by
  obtain ⟨fc, fn, fo, fp, fpc, fon, facc, fmax, fmin, flast⟩ :=
    startFinish_fields cfg env wpS cp tm
  refine ⟨?_, ?_, ?_, ?_, ?_, ?_, ?_, ?_, ?_⟩
  · rw [fc, fn]; exact h1
  · rw [fmin]; exact h2
  · rw [fmin, fmax]; exact h3
  · rw [fmax, facc]; exact h4
  · intro hwe _
    rw [flast hwe]
    exact hm hwpS
  · rw [fp]; exact h6
  · rw [fpc, fp]; exact h7
  · rw [fpc]; exact h8
  · simp only [psum, fpc, fn, fo, fc, fon, if_pos rfl]
    simpa [psum] using h9

theorem regionInv_start_parent {cfg : Config} {env : Env} {wp wp' wpS cp : ℕ}
    {tm : Timer} (hm : Monotone env.wtime)
    (hr : RegionInv cfg env wp tm) (hoff : tm.onflg = false)
    (hwpS : wpS ≤ wp') (p : ℕ) :
    RegionInv cfg env wp' (startFinish cfg env wpS cp (parentApply p tm)) := by
  obtain ⟨h1, h2, h3, h4, h5, h6, h7, h8, h9⟩ := hr
  obtain ⟨g1, g2, g3, g4⟩ := parentApply_spec p tm h7
  obtain ⟨f1, f2, f3, f4, f5⟩ := parentApply_fields p tm
  have h9' : psum tm + tm.norphan + tm.nrecurse = tm.count := by
    simpa [hoff] using h9
  refine regionInv_startFinish hm hwpS ?_ ?_ ?_ ?_ ?_ ?_ ?_ ?_
  · rw [f1, f2]; exact h1
  · rw [f4]; exact h2
  · rw [f4]; exact h3
  · rw [f4]; exact h4
  · exact g1.mpr h6
  · exact g2
  · exact g3 h8
  · rw [g4, f2, f3, f1]; omega

theorem regionInv_start_orphan {cfg : Config} {env : Env} {wp wp' wpS cp : ℕ}
    {tm : Timer} (hm : Monotone env.wtime)
    (hr : RegionInv cfg env wp tm) (hoff : tm.onflg = false)
    (hwpS : wpS ≤ wp') :
    RegionInv cfg env wp'
      (startFinish cfg env wpS cp { tm with norphan := tm.norphan + 1 }) := by
  obtain ⟨h1, h2, h3, h4, h5, h6, h7, h8, h9⟩ := hr
  have h9' : psum tm + tm.norphan + tm.nrecurse = tm.count := by
    simpa [hoff] using h9
  refine regionInv_startFinish hm hwpS h1 h2 h3 h4 h6 h7 h8 ?_
  simp only [psum] at h9' ⊢
  omega

theorem regionInv_recurse {cfg : Config} {env : Env} {wp : ℕ} {tm : Timer}
    (hr : RegionInv cfg env wp tm) :
    RegionInv cfg env wp { tm with recurselvl := tm.recurselvl + 1 } := hr

theorem regionInv_stop_rec {cfg : Config} {env : Env} {wp : ℕ} {tm : Timer}
    (hr : RegionInv cfg env wp tm) :
    RegionInv cfg env wp
      { tm with count := tm.count + 1, nrecurse := tm.nrecurse + 1,
                recurselvl := tm.recurselvl - 1 } := by
  obtain ⟨h1, h2, h3, h4, h5, h6, h7, h8, h9⟩ := hr
  refine ⟨?_, h2, h3, h4, h5, h6, h7, h8, ?_⟩
  · show tm.nrecurse + 1 ≤ tm.count + 1
    omega
  · show tm.parent_count.sum + tm.norphan + (tm.nrecurse + 1)
        = tm.count + 1 + (if tm.onflg = true then 1 else 0)
    simp only [psum] at h9
    cases hof : tm.onflg <;> simp [hof] at h9 ⊢ <;> omega

/-- The CPU accumulation touches no field the invariant reads. -/
theorem regionInv_cpuApply {cfg : Config} {env : Env} {wp : ℕ} {tm : Timer}
    {usr sys : ℤ} (hr : RegionInv cfg env wp tm) :
    RegionInv cfg env wp (cpuApply usr sys tm) := hr

/-- Invariant bounds for the wallclock accumulation of a final stop:
the delta is nonnegative because the stop timestamp is no earlier than the
recorded start timestamp. -/
theorem regionInv_wallApply_aux {cfg : Config} {env : Env} {wp' : ℕ}
    {tm : Timer} {tp1 : ℚ}
    (h2 : 0 ≤ tm.wall.min) (h3 : tm.wall.min ≤ tm.wall.max)
    (h4 : tm.wall.max ≤ tm.wall.accum)
    (hl : tm.wall.last ≤ tp1)
    (hcore : ∀ w : Wallstats, 0 ≤ w.min → w.min ≤ w.max → w.max ≤ w.accum →
      RegionInv cfg env wp'
        { tm with count := tm.count + 1, onflg := false, wall := w }) :
    RegionInv cfg env wp'
      (wallApply tp1 { tm with count := tm.count + 1, onflg := false }) := by
  have hd : 0 ≤ tp1 - tm.wall.last := by linarith
  unfold wallApply
  split_ifs with hcnt
  · refine hcore _ ?_ ?_ ?_
    · show (0 : ℚ) ≤ tp1 - tm.wall.last
      linarith
    · show tp1 - tm.wall.last ≤ tp1 - tm.wall.last
      exact le_refl _
    · show tp1 - tm.wall.last ≤ tm.wall.accum + (tp1 - tm.wall.last)
      linarith
  · refine hcore _ ?_ ?_ ?_
    · show (0 : ℚ) ≤
        if tp1 - tm.wall.last < tm.wall.min then tp1 - tm.wall.last
        else tm.wall.min
      split_ifs <;> linarith
    · show (if tp1 - tm.wall.last < tm.wall.min then tp1 - tm.wall.last
          else tm.wall.min) ≤
        (if tm.wall.max < tp1 - tm.wall.last then tp1 - tm.wall.last
          else tm.wall.max)
      split_ifs <;> linarith
    · show (if tm.wall.max < tp1 - tm.wall.last then tp1 - tm.wall.last
          else tm.wall.max) ≤ tm.wall.accum + (tp1 - tm.wall.last)
      split_ifs <;> linarith

theorem regionInv_stop_final {cfg : Config} {env : Env} {wp wp' : ℕ}
    {tm : Timer} {tp1 : ℚ} {usr sys : ℤ}
    (hr : RegionInv cfg env wp tm) (hon : tm.onflg = true)
    (htp : cfg.wall_enabled = true → tm.wall.last ≤ tp1) :
    RegionInv cfg env wp' (stopFinish cfg tp1 usr sys tm) := by
  obtain ⟨h1, h2, h3, h4, h5, h6, h7, h8, h9⟩ := hr
  have h9' : psum tm + tm.norphan + tm.nrecurse = tm.count + 1 := by
    simpa [hon] using h9
  have hcore : ∀ wallPart : Wallstats,
      0 ≤ wallPart.min → wallPart.min ≤ wallPart.max →
      wallPart.max ≤ wallPart.accum →
      RegionInv cfg env wp'
        { tm with count := tm.count + 1, onflg := false, wall := wallPart } := by
    intro w hw0 hw1 hw2
    refine ⟨?_, hw0, hw1, hw2, by simp, h6, h7, h8, ?_⟩
    · show tm.nrecurse ≤ tm.count + 1
      omega
    · show tm.parent_count.sum + tm.norphan + tm.nrecurse
          = tm.count + 1 + (if false = true then 1 else 0)
      simp only [psum] at h9'
      simp only [Bool.false_eq_true, if_false, Nat.add_zero]
      omega
  unfold stopFinish
  by_cases hc : cfg.cpu_enabled <;> by_cases hw : cfg.wall_enabled <;>
    simp only [hc, hw, ite_true, ite_false, Bool.false_eq_true]
  · apply regionInv_cpuApply
    apply regionInv_wallApply_aux h2 h3 h4 (htp hw) hcore
  · apply regionInv_cpuApply
    exact hcore tm.wall h2 h3 h4
  · apply regionInv_wallApply_aux h2 h3 h4 (htp hw) hcore
  · exact hcore tm.wall h2 h3 h4

/-! ### Preservation of the state invariant by the engine calls -/

theorem timerInv_of_stateInv {cfg : Config} {env : Env} {s : GState}
    (hinv : StateInv cfg env s) (i : ℕ) (hi1 : 1 ≤ i)
    (hilen : i < s.timers.length) :
    RegionInv cfg env s.wpos (s.timer i) := by
  obtain ⟨⟨rest, hrest, hreg⟩, hht⟩ := hinv
  obtain ⟨j, rfl⟩ : ∃ j, i = j + 1 := ⟨i - 1, by omega⟩
  have hjlen : j < rest.length := by
    rw [hrest] at hilen
    simpa using hilen
  have : s.timer (j + 1) = rest.getD j default := by
    unfold GState.timer
    rw [hrest]
    simp [List.getD]
  rw [this]
  apply hreg
  have := List.getD_eq_getElem rest default hjlen
  rw [this]
  exact List.getElem_mem hjlen

theorem stateInv_set_region {cfg : Config} {env : Env} {s : GState}
    (hm : Monotone env.wtime) (hinv : StateInv cfg env s)
    (i : ℕ) (hi1 : 1 ≤ i) (G : Timer → Timer) (wp' : ℕ)
    (hwp : s.wpos ≤ wp')
    (hG : RegionInv cfg env wp' (G (s.timer i))) :
    ∃ rest', s.timers.set i (G (s.timer i)) = rootTimer :: rest' ∧
      ∀ tm ∈ rest', RegionInv cfg env wp' tm := by
  obtain ⟨⟨rest, hrest, hreg⟩, hht⟩ := hinv
  obtain ⟨j, rfl⟩ : ∃ j, i = j + 1 := ⟨i - 1, by omega⟩
  refine ⟨rest.set j (G (s.timer (j + 1))), ?_, ?_⟩
  · rw [hrest]
    rfl
  · intro tm hmem
    rcases List.mem_or_eq_of_mem_set hmem with h | h
    · exact regionInv_mono_wp hm hwp (hreg tm h)
    · rw [h]
      exact hG

/-- Changing only `callstack`, `stackidx` or `max_name_len` leaves the
state invariant untouched. -/
theorem stateInv_same_core {cfg : Config} {env : Env} {s s' : GState}
    (hinv : StateInv cfg env s)
    (ht : s'.timers = s.timers) (hh : s'.hashtable = s.hashtable)
    (hw : s'.wpos = s.wpos) : StateInv cfg env s' := by
  obtain ⟨⟨rest, hrest, hreg⟩, hht⟩ := hinv
  exact ⟨⟨rest, by rw [ht, hrest], by rw [hw]; exact hreg⟩,
    by rw [hh, ht]; exact hht⟩

theorem stateInv_initState (cfg : Config) (env : Env) :
    StateInv cfg env initState := by
  refine ⟨⟨[], rfl, by simp⟩, ?_⟩
  intro b i hmem
  simp [initState] at hmem

/-- Shape of the sampling prologue of the stop paths. -/
theorem stop_samples_spec (cfg : Config) (env : Env) (s : GState) :
    stop_samples cfg env s =
      ((if cfg.wall_enabled = true then env.wtime s.wpos else 0),
       (if cfg.cpu_enabled = true then env.cpu_usr s.cpos else 0),
       (if cfg.cpu_enabled = true then env.cpu_sys s.cpos else 0),
       { s with wpos := s.wpos + (if cfg.wall_enabled = true then 1 else 0),
                cpos := s.cpos + (if cfg.cpu_enabled = true then 1 else 0) }) := by
  by_cases hc : cfg.cpu_enabled <;> by_cases hw : cfg.wall_enabled <;>
    simp [stop_samples, hc, hw]

theorem update_stats_err (cfg : Config) (i : ℕ) (tp1 : ℚ) (usr sys : ℤ)
    (s : GState) (h : s.stackidx - 1 < -1) :
    update_stats cfg i tp1 usr sys s =
      ({ modT s i (fun tm => { tm with onflg := false }) with stackidx := -1 },
       .error .depthNegative) := by
  simp only [update_stats, modT_stackidx, if_pos h]

theorem stop_part2_err (cfg : Config) (i : ℕ) (tp1 : ℚ) (usr sys : ℤ)
    (s : GState) (hi : i < s.timers.length)
    (hrec : (s.timer i).recurselvl = 0) (h : s.stackidx - 1 < -1) :
    stop_part2 cfg i tp1 usr sys s =
      ({ modT s i (fun tm => { tm with count := tm.count + 1, onflg := false })
         with stackidx := -1 }, .error .depthNegative) := by
  have hread : (modT s i (fun tm => { tm with count := tm.count + 1 })).timer i
      = { s.timer i with count := (s.timer i).count + 1 } :=
    timer_modT_self s i _ hi
  have hnrec : ¬ 0 < (s.timer i).recurselvl := by omega
  have h1 : (modT s i (fun tm =>
      { tm with count := tm.count + 1 })).stackidx - 1 < -1 := h
  simp only [stop_part2, hread]
  rw [if_neg hnrec, update_stats_err cfg i tp1 usr sys _ h1, modT_modT]

/-- Region invariant after the truncated error path of `update_stats`
(count already bumped, timer turned off, statistics untouched). -/
theorem regionInv_stop_offcount {cfg : Config} {env : Env} {wp wp' : ℕ}
    {tm : Timer} (hr : RegionInv cfg env wp tm) (hon : tm.onflg = true) :
    RegionInv cfg env wp' { tm with count := tm.count + 1, onflg := false } := by
  obtain ⟨h1, h2, h3, h4, h5, h6, h7, h8, h9⟩ := hr
  have h9' : psum tm + tm.norphan + tm.nrecurse = tm.count + 1 := by
    simpa [hon] using h9
  refine ⟨?_, h2, h3, h4, by simp, h6, h7, h8, ?_⟩
  · show tm.nrecurse ≤ tm.count + 1
    omega
  · show tm.parent_count.sum + tm.norphan + tm.nrecurse
        = tm.count + 1 + (if false = true then 1 else 0)
    simp only [psum] at h9'
    simp only [Bool.false_eq_true, if_false, Nat.add_zero]
    omega

/-- State invariant is preserved by any change that keeps the region list
and hash table and does not rewind the wallclock stream. -/
theorem stateInv_wpos_le {cfg : Config} {env : Env} {s s' : GState}
    (hm : Monotone env.wtime) (hinv : StateInv cfg env s)
    (ht : s'.timers = s.timers) (hh : s'.hashtable = s.hashtable)
    (hw : s.wpos ≤ s'.wpos) : StateInv cfg env s' := by
  obtain ⟨⟨rest, hrest, hreg⟩, hht⟩ := hinv
  exact ⟨⟨rest, by rw [ht, hrest],
      fun tm hmem => regionInv_mono_wp hm hw (hreg tm hmem)⟩,
    by rw [hh, ht]; exact hht⟩

/-- Wrap `stateInv_set_region` into a proof for a whole state whose
components are the mutated ones. -/
theorem stateInv_modT_wrap {cfg : Config} {env : Env} {s : GState}
    (hm : Monotone env.wtime) (hinv : StateInv cfg env s)
    (i : ℕ) (hi1 : 1 ≤ i) (G : Timer → Timer) (wp' : ℕ)
    (hwp : s.wpos ≤ wp')
    (hG : RegionInv cfg env wp' (G (s.timer i)))
    (s' : GState)
    (hts : s'.timers = s.timers.set i (G (s.timer i)))
    (hhs : s'.hashtable = s.hashtable)
    (hws : s'.wpos = wp') :
    StateInv cfg env s' := by
  obtain ⟨rest', h1, h2⟩ := stateInv_set_region hm hinv i hi1 G wp' hwp hG
  refine ⟨⟨rest', by rw [hts]; exact h1, by rw [hws]; exact h2⟩, ?_⟩
  intro b j hjm
  rw [hhs] at hjm
  have hb := hinv.2 b j hjm
  refine ⟨hb.1, ?_⟩
  rw [hts, List.length_set]
  exact hb.2

/-- Interning a fresh zeroed entry preserves the invariant, and the new
entry sits at the old list length, off and freshly zeroed. -/
theorem stateInv_update_ll_hash {cfg : Config} {env : Env} {s : GState}
    (hinv : StateInv cfg env s) (nm : List Char) (indx : ℕ) :
    StateInv cfg env (update_ll_hash s { Timer.zero with name := nm } indx) ∧
    1 ≤ s.timers.length ∧
    (update_ll_hash s { Timer.zero with name := nm } indx).timer
        s.timers.length = { Timer.zero with name := nm } := by
  obtain ⟨⟨rest, hrest, hreg⟩, hht⟩ := hinv
  have hlen : 1 ≤ s.timers.length := by
    rw [hrest]; simp
  refine ⟨⟨⟨rest ++ [{ Timer.zero with name := nm }], ?_, ?_⟩, ?_⟩, hlen, ?_⟩
  · show s.timers ++ [_] = _
    rw [hrest]
    rfl
  · intro tm hmem
    rcases List.mem_append.mp hmem with h | h
    · exact hreg tm h
    · rw [List.mem_singleton.mp h]
      exact regionInv_zero_name cfg env s.wpos nm
  · intro b j hjm
    show 1 ≤ j ∧ j < (s.timers ++ _).length
    simp only [List.length_append, List.length_singleton]
    by_cases hb : b = indx
    · subst hb
      simp only [update_ll_hash, if_pos rfl] at hjm
      rcases List.mem_append.mp hjm with h | h
      · have := hht b j h
        omega
      · rw [List.mem_singleton.mp h]
        omega
    · simp only [update_ll_hash, if_neg hb] at hjm
      have := hht b j hjm
      omega
  · show (s.timers ++ [_]).getD s.timers.length default = _
    simp [List.getD]

/-- The parent-tracking and on-switch tail of a start preserves the state
invariant, given that the addressed region is a non-sentinel region that
is currently off and satisfies its invariant. -/
theorem stateInv_start_part3 {cfg : Config} {env : Env} {s : GState} {i : ℕ}
    (hm : Monotone env.wtime) (hinv : StateInv cfg env s) (hi1 : 1 ≤ i)
    (htmr : RegionInv cfg env s.wpos (s.timer i))
    (hoff : (s.timer i).onflg = false) :
    StateInv cfg env (start_part3 cfg env i s).1 := by
  unfold start_part3
  rcases hupd : update_parent_info i s with ⟨sU, rU⟩
  cases rU with
  | error e =>
    show StateInv cfg env sU
    rcases lt_trichotomy s.stackidx 0 with hneg | hzero | hpos
    · rw [update_parent_info_neg i s hneg] at hupd
      cases hupd
      exact hinv
    · rw [update_parent_info_zero i s hzero] at hupd
      simp at hupd
    · rw [update_parent_info_pos i s hpos] at hupd
      simp at hupd
  | ok u =>
    show StateInv cfg env (update_ptr cfg env i sU)
    rcases lt_trichotomy s.stackidx 0 with hneg | hzero | hpos
    · rw [update_parent_info_neg i s hneg] at hupd
      simp at hupd
    · rw [update_parent_info_zero i s hzero] at hupd
      cases hupd
      rw [update_ptr_eq, modT_modT]
      exact stateInv_modT_wrap hm hinv i hi1
        (fun tm => startFinish cfg env s.wpos s.cpos
          { tm with norphan := tm.norphan + 1 })
        (s.wpos + (if cfg.wall_enabled = true then 1 else 0))
        (Nat.le_add_right _ _)
        (regionInv_start_orphan hm htmr hoff (Nat.le_add_right _ _))
        _ rfl rfl rfl
    · rw [update_parent_info_pos i s hpos] at hupd
      cases hupd
      rw [update_ptr_eq, modT_modT]
      exact stateInv_modT_wrap hm hinv i hi1
        (fun tm => startFinish cfg env s.wpos s.cpos
          (parentApply (s.callstack (s.stackidx.toNat - 1)) tm))
        (s.wpos + (if cfg.wall_enabled = true then 1 else 0))
        (Nat.le_add_right _ _)
        (regionInv_start_parent hm htmr hoff (Nat.le_add_right _ _) _)
        _ rfl rfl rfl

theorem start_part2_overflow {cfg : Config} {env : Env} {s : GState}
    {name : List Char} {optr : Option ℕ}
    (h : MAX_STACK - 1 < s.stackidx + 1) :
    start_part2 cfg env name optr s =
      ({ s with stackidx := s.stackidx + 1 }, .error .stackTooBig, 0) := by
  simp [start_part2, h]

theorem start_part2_found {cfg : Config} {env : Env} {s : GState}
    {name : List Char} {i : ℕ}
    (h : ¬ MAX_STACK - 1 < s.stackidx + 1) :
    start_part2 cfg env name (some i) s =
      ((start_part3 cfg env i { s with stackidx := s.stackidx + 1 }).1,
       (start_part3 cfg env i { s with stackidx := s.stackidx + 1 }).2, i) := by
  simp [start_part2, h]

theorem start_part2_new {cfg : Config} {env : Env} {s : GState}
    {name : List Char}
    (h : ¬ MAX_STACK - 1 < s.stackidx + 1) :
    start_part2 cfg env name none s =
      ((start_part3 cfg env s.timers.length
         (update_ll_hash { s with stackidx := s.stackidx + 1 }
           { Timer.zero with name := name.take MAX_CHARS }
           (genhashidx cfg.tablesize name))).1,
       (start_part3 cfg env s.timers.length
         (update_ll_hash { s with stackidx := s.stackidx + 1 }
           { Timer.zero with name := name.take MAX_CHARS }
           (genhashidx cfg.tablesize name))).2,
       s.timers.length) := by
  simp [start_part2, h]

theorem stateInv_start_part2 {cfg : Config} {env : Env} {s : GState}
    {name : List Char} {optr : Option ℕ}
    (hm : Monotone env.wtime) (hinv : StateInv cfg env s)
    (hopt : ∀ i, optr = some i →
      1 ≤ i ∧ i < s.timers.length ∧ (s.timer i).onflg = false) :
    StateInv cfg env (start_part2 cfg env name optr s).1 := by
  by_cases hov : MAX_STACK - 1 < s.stackidx + 1
  · rw [start_part2_overflow hov]
    exact stateInv_same_core hinv rfl rfl rfl
  · have hinv1 : StateInv cfg env { s with stackidx := s.stackidx + 1 } :=
      stateInv_same_core hinv rfl rfl rfl
    cases optr with
    | some i =>
      rw [start_part2_found hov]
      obtain ⟨hi1, hilen, hoff⟩ := hopt i rfl
      exact stateInv_start_part3 hm hinv1 hi1
        (timerInv_of_stateInv hinv1 i hi1 hilen) hoff
    | none =>
      rw [start_part2_new hov]
      obtain ⟨hinvN, hlen1, hat⟩ := stateInv_update_ll_hash hinv1
        (name.take MAX_CHARS) (genhashidx cfg.tablesize name)
      refine stateInv_start_part3 hm hinvN hlen1 ?_ ?_
      · rw [hat]
        exact regionInv_zero_name cfg env _ _
      · rw [hat]
        rfl

theorem getentry_bounds {cfg : Config} {env : Env} {s : GState}
    (hinv : StateInv cfg env s) {name : List Char} {i : ℕ}
    (h : getentry cfg.tablesize s.hashtable s.timers name = some i) :
    1 ≤ i ∧ i < s.timers.length :=
  hinv.2 _ i (List.mem_of_find?_eq_some h)

theorem stateInv_GPTLstart {cfg : Config} {env : Env} {s : GState}
    (hm : Monotone env.wtime) (hinv : StateInv cfg env s)
    (name : List Char) :
    StateInv cfg env (GPTLstart cfg env name s).1 := by
  unfold GPTLstart
  split_ifs with hd hdl
  · exact hinv
  · exact stateInv_same_core hinv rfl rfl rfl
  · cases hopt : getentry cfg.tablesize s.hashtable s.timers name with
    | some i =>
      obtain ⟨hi1, hilen⟩ := getentry_bounds hinv hopt
      by_cases hon : (s.timer i).onflg = true
      · simp only [hopt, hon, if_pos]
        exact stateInv_modT_wrap hm hinv i hi1
          (fun tm => { tm with recurselvl := tm.recurselvl + 1 })
          s.wpos (le_refl _)
          (regionInv_recurse (timerInv_of_stateInv hinv i hi1 hilen))
          _ rfl rfl rfl
      · have hoff : (s.timer i).onflg = false := by
          simpa using hon
        simp only [hopt, hoff]
        have hopt2 : ∀ j, (some i : Option ℕ) = some j →
            1 ≤ j ∧ j < s.timers.length ∧ (s.timer j).onflg = false := by
          intro j hj
          have hj' : i = j := Option.some.inj hj
          subst hj'
          exact ⟨hi1, hilen, hoff⟩
        simpa using stateInv_start_part2 hm hinv hopt2
    | none =>
      simp only [hopt]
      have hopt2 : ∀ j, (none : Option ℕ) = some j →
          1 ≤ j ∧ j < s.timers.length ∧ (s.timer j).onflg = false := by
        intro j hj
        exact absurd hj (by simp)
      simpa using stateInv_start_part2 hm hinv hopt2

theorem stateInv_stop_part1 {cfg : Config} {env : Env} {s : GState}
    (hm : Monotone env.wtime) (hinv : StateInv cfg env s)
    (tp1 : ℚ) (usr sys : ℤ) (optr : Option ℕ) (enone : GErr)
    (s2 : GState)
    (hts : s2.timers = s.timers) (hhs : s2.hashtable = s.hashtable)
    (hw2 : s.wpos ≤ s2.wpos)
    (hopt : ∀ i, optr = some i → 1 ≤ i ∧ i < s.timers.length)
    (htp : cfg.wall_enabled = true → env.wtime s.wpos ≤ tp1) :
    StateInv cfg env (stop_part1 cfg tp1 usr sys optr enone s2).1 := by
  have hinv2 : StateInv cfg env s2 := stateInv_wpos_le hm hinv hts hhs hw2
  unfold stop_part1
  by_cases hdl : cfg.depthlimit < s2.stackidx
  · rw [if_pos hdl]
    exact stateInv_same_core hinv2 rfl rfl rfl
  · rw [if_neg hdl]
    cases optr with
    | none => exact hinv2
    | some i =>
      obtain ⟨hi1, hilen⟩ := hopt i rfl
      have hilen2 : i < s2.timers.length := by
        rw [hts]
        exact hilen
      have htm : s2.timer i = s.timer i := by
        unfold GState.timer
        rw [hts]
      show StateInv cfg env
        (if (s2.timer i).onflg = false then (s2, Except.error GErr.alreadyOff)
         else stop_part2 cfg i tp1 usr sys s2).1
      by_cases hoff : (s2.timer i).onflg = false
      · rw [if_pos hoff]
        exact hinv2
      · rw [if_neg hoff]
        have hon : (s2.timer i).onflg = true := by
          simpa using hoff
        have htmr2 := timerInv_of_stateInv hinv2 i hi1 hilen2
        by_cases hrec : 0 < (s2.timer i).recurselvl
        · rw [stop_part2_rec _ _ _ _ _ _ hilen2 hrec]
          exact stateInv_modT_wrap hm hinv2 i hi1
            (fun tm => { tm with count := tm.count + 1,
                                 nrecurse := tm.nrecurse + 1,
                                 recurselvl := tm.recurselvl - 1 })
            s2.wpos (le_refl _)
            (regionInv_stop_rec htmr2)
            _ rfl rfl rfl
        · have hrec0 : (s2.timer i).recurselvl = 0 := by omega
          by_cases hdeep : s2.stackidx - 1 < -1
          · rw [stop_part2_err _ _ _ _ _ _ hilen2 hrec0 hdeep]
            exact stateInv_modT_wrap hm hinv2 i hi1
              (fun tm => { tm with count := tm.count + 1, onflg := false })
              s2.wpos (le_refl _)
              (regionInv_stop_offcount htmr2 hon)
              _ rfl rfl rfl
          · rw [stop_part2_final _ _ _ _ _ _ hilen2 hrec0 hdeep]
            have htmr := timerInv_of_stateInv hinv i hi1 hilen
            have hlast : cfg.wall_enabled = true →
                (s2.timer i).wall.last ≤ tp1 := by
              intro hwe
              rw [htm]
              refine le_trans (htmr.2.2.2.2.1 hwe ?_) (htp hwe)
              rw [← htm]
              exact hon
            exact stateInv_modT_wrap hm hinv2 i hi1
              (fun tm => stopFinish cfg tp1 usr sys tm)
              s2.wpos (le_refl _)
              (regionInv_stop_final htmr2 hon hlast)
              _ rfl rfl rfl

theorem stateInv_GPTLstop {cfg : Config} {env : Env} {s : GState}
    (hm : Monotone env.wtime) (hinv : StateInv cfg env s)
    (name : List Char) :
    StateInv cfg env (GPTLstop cfg env name s).1 := by
  by_cases hd : cfg.disabled = true
  · simp only [GPTLstop, hd, ite_true]
    exact hinv
  · simp only [GPTLstop, if_neg hd, stop_samples_spec]
    refine stateInv_stop_part1 hm hinv _ _ _ _ _ _ rfl rfl
      (Nat.le_add_right _ _) ?_ ?_
    · intro i hi
      exact getentry_bounds hinv hi
    · intro hwe
      rw [if_pos hwe]

theorem stateInv_stepOp {cfg : Config} {env : Env} {s : GState}
    (hm : Monotone env.wtime) (hinv : StateInv cfg env s) (op : Op) :
    StateInv cfg env (stepOp cfg env op s).1 := by
  cases op with
  | start name => exact stateInv_GPTLstart hm hinv name
  | stop name => exact stateInv_GPTLstop hm hinv name

theorem stateInv_runFrom {cfg : Config} {env : Env}
    (hm : Monotone env.wtime) (ops : List Op) :
    ∀ s : GState, StateInv cfg env s →
      StateInv cfg env (runFrom cfg env s ops).1 := by
  induction ops with
  | nil => intro s hinv; exact hinv
  | cons op rest ih =>
    intro s hinv
    have h1 := stateInv_stepOp hm hinv op
    have h2 := ih _ h1
    simpa only [runFrom] using h2

theorem stateInv_run {cfg : Config} {env : Env}
    (hm : Monotone env.wtime) (ops : List Op) :
    StateInv cfg env (run cfg env ops).1 :=
  stateInv_runFrom hm ops initState (stateInv_initState cfg env)

/-! ## Per-claim theorems -/

theorem envId_mono : Monotone envId.wtime := by
  intro a b h
  show mkRat (Int.ofNat a) 1 ≤ mkRat (Int.ofNat b) 1
  rw [Rat.mkRat_one, Rat.mkRat_one]
  have h2 : (Int.ofNat a : ℤ) ≤ Int.ofNat b := Int.ofNat_le.mpr h
  exact_mod_cast h2

theorem regionInv_of_run {cfg : Config} {env : Env}
    (hm : Monotone env.wtime) (ops : List Op) {tm : Timer}
    (hmem : tm ∈ (run cfg env ops).1.timers.drop 1) :
    RegionInv cfg env (run cfg env ops).1.wpos tm := by
  obtain ⟨⟨rest, hrest, hreg⟩, _⟩ := @stateInv_run cfg env hm ops
  rw [hrest] at hmem
  exact hreg tm hmem

/-- C2: for every region of any run, the recorded parents are pairwise
distinct with positive counts; parent counts plus `norphan` account for
every non-recursive start, so they equal `count - nrecurse` once the region
is off, and exceed it by exactly one while it is on. -/
theorem C2_parent_tracker (cfg : Config) (env : Env)
    (hm : Monotone env.wtime) (ops : List Op) (tm : Timer)
    (hmem : tm ∈ (run cfg env ops).1.timers.drop 1) :
    tm.parent.Nodup ∧ (∀ c ∈ tm.parent_count, 1 ≤ c) ∧
    tm.parent_count.sum + tm.norphan + tm.nrecurse
      = tm.count + (if tm.onflg = true then 1 else 0) ∧
    (tm.onflg = false →
      tm.parent_count.sum + tm.norphan = tm.count - tm.nrecurse) := by
  obtain ⟨h1, h2, h3, h4, h5, h6, h7, h8, h9⟩ := regionInv_of_run hm ops hmem
  simp only [psum] at h9
  refine ⟨h6, h8, h9, ?_⟩
  intro hoff
  rw [hoff] at h9
  simp only [Bool.false_eq_true, if_false, Nat.add_zero] at h9
  omega

theorem C2_parent_tracker_witness :
    ((run Config.default envId [Op.start rName, Op.stop rName]).1.timer
        1).parent.Nodup ∧
    (∀ c ∈ ((run Config.default envId
        [Op.start rName, Op.stop rName]).1.timer 1).parent_count, 1 ≤ c) ∧
    ((run Config.default envId [Op.start rName, Op.stop rName]).1.timer
          1).parent_count.sum
        + ((run Config.default envId [Op.start rName, Op.stop rName]).1.timer
          1).norphan
        + ((run Config.default envId [Op.start rName, Op.stop rName]).1.timer
          1).nrecurse
      = ((run Config.default envId [Op.start rName, Op.stop rName]).1.timer
          1).count
        + (if ((run Config.default envId
            [Op.start rName, Op.stop rName]).1.timer 1).onflg = true
           then 1 else 0) ∧
    (((run Config.default envId [Op.start rName, Op.stop rName]).1.timer
        1).onflg = false →
      ((run Config.default envId [Op.start rName, Op.stop rName]).1.timer
          1).parent_count.sum
        + ((run Config.default envId [Op.start rName, Op.stop rName]).1.timer
          1).norphan
      = ((run Config.default envId [Op.start rName, Op.stop rName]).1.timer
          1).count
        - ((run Config.default envId [Op.start rName, Op.stop rName]).1.timer
          1).nrecurse) :=
  C2_parent_tracker Config.default envId envId_mono
    [Op.start rName, Op.stop rName] _ (by with_unfolding_all decide)

/-- The equality claimed by C2 without the on-flag correction fails while a
region is still on: right after a single start the region has one recorded
parent count and no completed stop yet. -/
theorem C2_counterexample :
    ¬ (((run Config.default envId [Op.start rName]).1.timer
          1).parent_count.sum
        + ((run Config.default envId [Op.start rName]).1.timer 1).norphan
      = ((run Config.default envId [Op.start rName]).1.timer 1).count
        - ((run Config.default envId [Op.start rName]).1.timer
            1).nrecurse) := by
  with_unfolding_all decide

/-- C3: for every region of any run, `count` dominates `nrecurse` and the
wallclock statistics satisfy `0 ≤ min ≤ max ≤ accum` (hence `accum ≥ 0`),
with no condition on `count` needed. -/
theorem C3_wall_bounds (cfg : Config) (env : Env)
    (hm : Monotone env.wtime) (ops : List Op) (tm : Timer)
    (hmem : tm ∈ (run cfg env ops).1.timers.drop 1) :
    tm.nrecurse ≤ tm.count ∧ 0 ≤ tm.wall.accum ∧
    0 ≤ tm.wall.min ∧ tm.wall.min ≤ tm.wall.max ∧
    tm.wall.max ≤ tm.wall.accum := by
  obtain ⟨h1, h2, h3, h4, h5, h6, h7, h8, h9⟩ := regionInv_of_run hm ops hmem
  exact ⟨h1, le_trans h2 (le_trans h3 h4), h2, h3, h4⟩

theorem C3_wall_bounds_witness :
    ((run Config.default envId [Op.start rName, Op.stop rName]).1.timer
        1).nrecurse
      ≤ ((run Config.default envId [Op.start rName, Op.stop rName]).1.timer
        1).count ∧
    0 ≤ ((run Config.default envId [Op.start rName, Op.stop rName]).1.timer
        1).wall.accum ∧
    0 ≤ ((run Config.default envId [Op.start rName, Op.stop rName]).1.timer
        1).wall.min ∧
    ((run Config.default envId [Op.start rName, Op.stop rName]).1.timer
        1).wall.min
      ≤ ((run Config.default envId [Op.start rName, Op.stop rName]).1.timer
        1).wall.max ∧
    ((run Config.default envId [Op.start rName, Op.stop rName]).1.timer
        1).wall.max
      ≤ ((run Config.default envId [Op.start rName, Op.stop rName]).1.timer
        1).wall.accum :=
  C3_wall_bounds Config.default envId envId_mono
    [Op.start rName, Op.stop rName] _ (by with_unfolding_all decide)

/-- C6: a start issued at or above the depth limit only increments the
stack index (no interning, no parent tracking, no timestamps), a stop
issued strictly above it only decrements the stack index after the
sampling prologue, and in the depthlimit-2 scenario only A and B acquire
statistics while stopping all three restores the stack index to 0. -/
theorem C6_depthlimit_suppression (cfg : Config) (env : Env)
    (name : List Char) (s sa : GState)
    (hd : cfg.disabled = false)
    (hstart : cfg.depthlimit ≤ s.stackidx)
    (hstop : cfg.depthlimit < sa.stackidx) :
    GPTLstart cfg env name s
      = ({ s with stackidx := s.stackidx + 1 }, .ok ()) ∧
    GPTLstop cfg env name sa
      = ({ sa with
            stackidx := sa.stackidx - 1,
            wpos := sa.wpos + (if cfg.wall_enabled = true then 1 else 0),
            cpos := sa.cpos + (if cfg.cpu_enabled = true then 1 else 0) },
         .ok ()) ∧
    (run { Config.default with depthlimit := 2 } envId
        [Op.start ['A'], Op.start ['B'], Op.start ['C'],
         Op.stop ['C'], Op.stop ['B'], Op.stop ['A']]).1.stackidx = 0 ∧
    (run { Config.default with depthlimit := 2 } envId
        [Op.start ['A'], Op.start ['B'], Op.start ['C'],
         Op.stop ['C'], Op.stop ['B'], Op.stop ['A']]).1.timers.length
      = 3 ∧
    ((run { Config.default with depthlimit := 2 } envId
        [Op.start ['A'], Op.start ['B'], Op.start ['C'],
         Op.stop ['C'], Op.stop ['B'], Op.stop ['A']]).1.timer 1).name
      = ['A'] ∧
    ((run { Config.default with depthlimit := 2 } envId
        [Op.start ['A'], Op.start ['B'], Op.start ['C'],
         Op.stop ['C'], Op.stop ['B'], Op.stop ['A']]).1.timer 1).count
      = 1 ∧
    ((run { Config.default with depthlimit := 2 } envId
        [Op.start ['A'], Op.start ['B'], Op.start ['C'],
         Op.stop ['C'], Op.stop ['B'], Op.stop ['A']]).1.timer 2).name
      = ['B'] ∧
    ((run { Config.default with depthlimit := 2 } envId
        [Op.start ['A'], Op.start ['B'], Op.start ['C'],
         Op.stop ['C'], Op.stop ['B'], Op.stop ['A']]).1.timer 2).count
      = 1 ∧
    (run { Config.default with depthlimit := 2 } envId
        [Op.start ['A'], Op.start ['B'], Op.start ['C'],
         Op.stop ['C'], Op.stop ['B'], Op.stop ['A']]).2
      = List.replicate 6 (Except.ok ()) := by
  refine ⟨?_, ?_, by with_unfolding_all decide⟩
  · simp only [GPTLstart, hd, Bool.false_eq_true, if_false]
    rw [if_pos hstart]
  · simp only [GPTLstop, hd, Bool.false_eq_true, if_false,
      stop_samples_spec, stop_part1]
    rw [if_pos hstop]

theorem C6_depthlimit_suppression_witness :
    GPTLstart { Config.default with depthlimit := 0 } envId rName initState
      = ({ initState with stackidx := initState.stackidx + 1 }, .ok ()) ∧
    GPTLstop { Config.default with depthlimit := 0 } envId rName
        { initState with stackidx := 1 }
      = ({ { initState with stackidx := 1 } with
            stackidx := (1 : ℤ) - 1,
            wpos := initState.wpos
              + (if ({ Config.default with
                      depthlimit := 0 } : Config).wall_enabled = true
                 then 1 else 0),
            cpos := initState.cpos
              + (if ({ Config.default with
                      depthlimit := 0 } : Config).cpu_enabled = true
                 then 1 else 0) },
         .ok ()) ∧
    (run { Config.default with depthlimit := 2 } envId
        [Op.start ['A'], Op.start ['B'], Op.start ['C'],
         Op.stop ['C'], Op.stop ['B'], Op.stop ['A']]).1.stackidx = 0 ∧
    (run { Config.default with depthlimit := 2 } envId
        [Op.start ['A'], Op.start ['B'], Op.start ['C'],
         Op.stop ['C'], Op.stop ['B'], Op.stop ['A']]).1.timers.length
      = 3 ∧
    ((run { Config.default with depthlimit := 2 } envId
        [Op.start ['A'], Op.start ['B'], Op.start ['C'],
         Op.stop ['C'], Op.stop ['B'], Op.stop ['A']]).1.timer 1).name
      = ['A'] ∧
    ((run { Config.default with depthlimit := 2 } envId
        [Op.start ['A'], Op.start ['B'], Op.start ['C'],
         Op.stop ['C'], Op.stop ['B'], Op.stop ['A']]).1.timer 1).count
      = 1 ∧
    ((run { Config.default with depthlimit := 2 } envId
        [Op.start ['A'], Op.start ['B'], Op.start ['C'],
         Op.stop ['C'], Op.stop ['B'], Op.stop ['A']]).1.timer 2).name
      = ['B'] ∧
    ((run { Config.default with depthlimit := 2 } envId
        [Op.start ['A'], Op.start ['B'], Op.start ['C'],
         Op.stop ['C'], Op.stop ['B'], Op.stop ['A']]).1.timer 2).count
      = 1 ∧
    (run { Config.default with depthlimit := 2 } envId
        [Op.start ['A'], Op.start ['B'], Op.start ['C'],
         Op.stop ['C'], Op.stop ['B'], Op.stop ['A']]).2
      = List.replicate 6 (Except.ok ()) :=
  C6_depthlimit_suppression { Config.default with depthlimit := 0 } envId
    rName initState { initState with stackidx := 1 }
    rfl (by decide) (by decide)

/-- C7: stopping a name with no entry on the calling thread returns the
unknown-timer error and leaves everything except the sample positions
unchanged; in the start-A stop-B scenario, A stays on with its counters
untouched and a subsequent stop of A completes normally. -/
theorem C7_unknown_stop (cfg : Config) (env : Env) (name : List Char)
    (s : GState) (hd : cfg.disabled = false)
    (hdl : ¬ cfg.depthlimit < s.stackidx)
    (hnone : getentry cfg.tablesize s.hashtable s.timers name = none) :
    GPTLstop cfg env name s
      = ({ s with
            wpos := s.wpos + (if cfg.wall_enabled = true then 1 else 0),
            cpos := s.cpos + (if cfg.cpu_enabled = true then 1 else 0) },
         .error .unknownTimer) ∧
    (run Config.default envId [Op.start ['A'], Op.stop ['B']]).2
      = [Except.ok (), Except.error GErr.unknownTimer] ∧
    ((run Config.default envId
        [Op.start ['A'], Op.stop ['B']]).1.timer 1).onflg = true ∧
    ((run Config.default envId
        [Op.start ['A'], Op.stop ['B']]).1.timer 1).count = 0 ∧
    (run Config.default envId
        [Op.start ['A'], Op.stop ['B']]).1.stackidx = 1 ∧
    (run Config.default envId
        [Op.start ['A'], Op.stop ['B'], Op.stop ['A']]).2
      = [Except.ok (), Except.error GErr.unknownTimer, Except.ok ()] ∧
    ((run Config.default envId
        [Op.start ['A'], Op.stop ['B'], Op.stop ['A']]).1.timer 1).onflg
      = false ∧
    ((run Config.default envId
        [Op.start ['A'], Op.stop ['B'], Op.stop ['A']]).1.timer 1).count
      = 1 ∧
    (run Config.default envId
        [Op.start ['A'], Op.stop ['B'], Op.stop ['A']]).1.stackidx = 0 := by
  refine ⟨?_, by with_unfolding_all decide⟩
  simp only [GPTLstop, hd, Bool.false_eq_true, if_false,
    stop_samples_spec, stop_part1]
  rw [if_neg hdl]
  simp only [hnone]

theorem C7_unknown_stop_witness :
    GPTLstop Config.default envId ['B']
        (GPTLstart Config.default envId ['A'] initState).1
      = ({ (GPTLstart Config.default envId ['A'] initState).1 with
            wpos := (GPTLstart Config.default envId ['A'] initState).1.wpos
              + (if Config.default.wall_enabled = true then 1 else 0),
            cpos := (GPTLstart Config.default envId ['A'] initState).1.cpos
              + (if Config.default.cpu_enabled = true then 1 else 0) },
         .error .unknownTimer) ∧
    (run Config.default envId [Op.start ['A'], Op.stop ['B']]).2
      = [Except.ok (), Except.error GErr.unknownTimer] ∧
    ((run Config.default envId
        [Op.start ['A'], Op.stop ['B']]).1.timer 1).onflg = true ∧
    ((run Config.default envId
        [Op.start ['A'], Op.stop ['B']]).1.timer 1).count = 0 ∧
    (run Config.default envId
        [Op.start ['A'], Op.stop ['B']]).1.stackidx = 1 ∧
    (run Config.default envId
        [Op.start ['A'], Op.stop ['B'], Op.stop ['A']]).2
      = [Except.ok (), Except.error GErr.unknownTimer, Except.ok ()] ∧
    ((run Config.default envId
        [Op.start ['A'], Op.stop ['B'], Op.stop ['A']]).1.timer 1).onflg
      = false ∧
    ((run Config.default envId
        [Op.start ['A'], Op.stop ['B'], Op.stop ['A']]).1.timer 1).count
      = 1 ∧
    (run Config.default envId
        [Op.start ['A'], Op.stop ['B'], Op.stop ['A']]).1.stackidx = 0 :=
  C7_unknown_stop Config.default envId ['B']
    (GPTLstart Config.default envId ['A'] initState).1
    rfl (by with_unfolding_all decide) (by with_unfolding_all decide)

/-- C4: a 64-byte name is stored truncated to its first 63 bytes, but
`getentry` compares the untruncated query against the stored truncated
name, so the matching stop misses (unknown-timer error), the original name
no longer resolves while the truncated one does, and a repeated start
interns a second region instead of resolving to the first. -/
theorem C4_truncation_no_collision :
    ((run Config.default envId
        [Op.start (List.replicate 64 'a')]).1.timer 1).name
      = List.replicate 63 'a' ∧
    (run Config.default envId [Op.start (List.replicate 64 'a'),
        Op.stop (List.replicate 64 'a')]).2
      = [Except.ok (), Except.error GErr.unknownTimer] ∧
    getentry Config.default.tablesize
        (run Config.default envId
          [Op.start (List.replicate 64 'a')]).1.hashtable
        (run Config.default envId
          [Op.start (List.replicate 64 'a')]).1.timers
        (List.replicate 64 'a') = none ∧
    getentry Config.default.tablesize
        (run Config.default envId
          [Op.start (List.replicate 64 'a')]).1.hashtable
        (run Config.default envId
          [Op.start (List.replicate 64 'a')]).1.timers
        (List.replicate 63 'a') = some 1 ∧
    (run Config.default envId [Op.start (List.replicate 64 'a'),
        Op.start (List.replicate 64 'a')]).1.timers.length = 3 := by
  with_unfolding_all decide

/-- C9 (amended): the TSC frequency comes from the max_freq file whenever
it yields a line (the cpuinfo scan is consulted only otherwise, and -1
results when neither file is available), and init fails exactly when the
discovered value is negative - merely non-positive values are accepted. -/
theorem C9_clockfreq_order (l : List Char) (lines : List (List Char))
    (f : CpuFiles) :
    get_clockfreq { max_freq_line := some l, cpuinfo := some lines }
      = (1 / 1000 : ℚ) * atofQ l ∧
    get_clockfreq { max_freq_line := some l, cpuinfo := none }
      = (1 / 1000 : ℚ) * atofQ l ∧
    get_clockfreq { max_freq_line := none, cpuinfo := some lines }
      = cpuMHzScan lines ∧
    get_clockfreq { max_freq_line := none, cpuinfo := none } = -1 ∧
    (init_nanotime f = .error .cantGetFreq ↔ get_clockfreq f < 0) ∧
    (¬ get_clockfreq f < 0 → init_nanotime f = .ok (get_clockfreq f)) := by
  refine ⟨rfl, rfl, rfl, rfl, ?_, ?_⟩
  · unfold init_nanotime
    split_ifs with h
    · simp [h]
    · simp [h]
  · intro h
    unfold init_nanotime
    rw [if_neg h]

/-- A max_freq file whose line parses to zero: neither source yields a
positive number, yet init succeeds with frequency 0 instead of failing. -/
theorem C9_counterexample :
    get_clockfreq { max_freq_line := some ['0'], cpuinfo := none } = 0 ∧
    init_nanotime { max_freq_line := some ['0'], cpuinfo := none }
      = .ok 0 := by
  have h0 : get_clockfreq { max_freq_line := some ['0'], cpuinfo := none }
      = 0 := by with_unfolding_all decide
  refine ⟨h0, ?_⟩
  unfold init_nanotime
  rw [h0]
  norm_num

/-! ## The recursion scenario (claim C1) -/

theorem stepOp_start (cfg : Config) (env : Env) (nm : List Char)
    (s : GState) : stepOp cfg env (Op.start nm) s = GPTLstart cfg env nm s :=
  rfl

theorem stepOp_stop (cfg : Config) (env : Env) (nm : List Char)
    (s : GState) : stepOp cfg env (Op.stop nm) s = GPTLstop cfg env nm s :=
  rfl

theorem start_first (env : Env) :
    GPTLstart Config.default env rName initState
      = (midS env 0 0 0 1, .ok ()) := rfl

theorem start_again (env : Env) (j : ℕ) :
    GPTLstart Config.default env rName (midS env 0 0 j 1)
      = (midS env 0 0 (j + 1) 1, .ok ()) := rfl

theorem stop_part1_rec_eq {cfg : Config} {tp1 : ℚ} {usr sys : ℤ}
    {optr : Option ℕ} {enone : GErr} {s2 : GState} {i : ℕ}
    (hdl : ¬ cfg.depthlimit < s2.stackidx)
    (hopt : optr = some i)
    (hon : (s2.timer i).onflg = true)
    (hilen : i < s2.timers.length)
    (hrec : 0 < (s2.timer i).recurselvl) :
    stop_part1 cfg tp1 usr sys optr enone s2 =
      (modT s2 i (fun tm => { tm with count := tm.count + 1,
                                      nrecurse := tm.nrecurse + 1,
                                      recurselvl := tm.recurselvl - 1 }),
       .ok ()) := by
  subst hopt
  unfold stop_part1
  rw [if_neg hdl]
  show (if (s2.timer i).onflg = false then (s2, Except.error GErr.alreadyOff)
        else stop_part2 cfg i tp1 usr sys s2) = _
  rw [if_neg (by simp [hon]), stop_part2_rec _ _ _ _ _ _ hilen hrec]

theorem stop_recursive (env : Env) (c j wp : ℕ) :
    GPTLstop Config.default env rName (midS env c c (j + 1) wp)
      = (midS env (c + 1) (c + 1) j (wp + 1), .ok ()) := by
  rw [show GPTLstop Config.default env rName (midS env c c (j + 1) wp)
      = stop_part1 Config.default (env.wtime wp) 0 0 (some 1)
          GErr.unknownTimer
          { midS env c c (j + 1) wp with wpos := wp + 1 } from rfl]
  have h1 : ¬ Config.default.depthlimit <
      ({ midS env c c (j + 1) wp with wpos := wp + 1 } : GState).stackidx := by
    show ¬ (99999 : ℤ) < 1
    decide
  have h2 : (({ midS env c c (j + 1) wp with wpos := wp + 1 } :
      GState).timer 1).onflg = true := rfl
  have h3 : (1 : ℕ) < ({ midS env c c (j + 1) wp with wpos := wp + 1 } :
      GState).timers.length := by
    show (1 : ℕ) < 2
    decide
  have h4 : 0 < (({ midS env c c (j + 1) wp with wpos := wp + 1 } :
      GState).timer 1).recurselvl := Nat.succ_pos j
  rw [stop_part1_rec_eq h1 rfl h2 h3 h4]
  rfl

theorem runFrom_append (cfg : Config) (env : Env) (l1 l2 : List Op) :
    ∀ s, runFrom cfg env s (l1 ++ l2)
      = ((runFrom cfg env (runFrom cfg env s l1).1 l2).1,
         (runFrom cfg env s l1).2
           ++ (runFrom cfg env (runFrom cfg env s l1).1 l2).2) := by
  induction l1 with
  | nil => intro s; simp [runFrom]
  | cons op t ih =>
    intro s
    simp only [List.cons_append, runFrom, List.append_eq, ih]

theorem startPhase (env : Env) (j : ℕ) :
    ∀ rl, runFrom Config.default env (midS env 0 0 rl 1)
        (List.replicate j (Op.start rName))
      = (midS env 0 0 (rl + j) 1, List.replicate j (Except.ok ())) := by
  induction j with
  | zero => intro rl; simp [runFrom]
  | succ n ih =>
    intro rl
    rw [List.replicate_succ]
    simp only [runFrom, stepOp_start, start_again env rl]
    simp only [ih (rl + 1)]
    have harl : rl + 1 + n = rl + (n + 1) := by omega
    rw [harl, List.replicate_succ]

theorem stopPhase (env : Env) (j : ℕ) :
    ∀ c wp, runFrom Config.default env (midS env c c j wp)
        (List.replicate j (Op.stop rName))
      = (midS env (c + j) (c + j) 0 (wp + j),
         List.replicate j (Except.ok ())) := by
  induction j with
  | zero => intro c wp; simp [runFrom]
  | succ n ih =>
    intro c wp
    rw [List.replicate_succ]
    simp only [runFrom, stepOp_stop, stop_recursive env c n wp]
    simp only [ih (c + 1) (wp + 1)]
    have h1 : c + 1 + n = c + (n + 1) := by omega
    have h2 : wp + 1 + n = wp + (n + 1) := by omega
    rw [h1, h2, List.replicate_succ]

theorem stop_part1_final_eq {cfg : Config} {tp1 : ℚ} {usr sys : ℤ}
    {optr : Option ℕ} {enone : GErr} {s2 : GState} {i : ℕ}
    (hdl : ¬ cfg.depthlimit < s2.stackidx)
    (hopt : optr = some i)
    (hon : (s2.timer i).onflg = true)
    (hilen : i < s2.timers.length)
    (hrec : (s2.timer i).recurselvl = 0)
    (hneg : ¬ s2.stackidx - 1 < -1) :
    stop_part1 cfg tp1 usr sys optr enone s2 =
      ({ modT s2 i (fun tm => stopFinish cfg tp1 usr sys tm)
         with stackidx := s2.stackidx - 1 }, .ok ()) := by
  subst hopt
  unfold stop_part1
  rw [if_neg hdl]
  show (if (s2.timer i).onflg = false then (s2, Except.error GErr.alreadyOff)
        else stop_part2 cfg i tp1 usr sys s2) = _
  rw [if_neg (by simp [hon]), stop_part2_final _ _ _ _ _ _ hilen hrec hneg]

theorem GPTLstop_final_eq {cfg : Config} {env : Env} {name : List Char}
    {s : GState} {i : ℕ}
    (hd : cfg.disabled = false)
    (hdl : ¬ cfg.depthlimit < s.stackidx)
    (hopt : getentry cfg.tablesize s.hashtable s.timers name = some i)
    (hon : (s.timer i).onflg = true)
    (hilen : i < s.timers.length)
    (hrec : (s.timer i).recurselvl = 0)
    (hneg : ¬ s.stackidx - 1 < -1) :
    GPTLstop cfg env name s =
      ({ modT { s with
            wpos := s.wpos + (if cfg.wall_enabled = true then 1 else 0),
            cpos := s.cpos + (if cfg.cpu_enabled = true then 1 else 0) } i
          (fun tm => stopFinish cfg
            (if cfg.wall_enabled = true then env.wtime s.wpos else 0)
            (if cfg.cpu_enabled = true then env.cpu_usr s.cpos else 0)
            (if cfg.cpu_enabled = true then env.cpu_sys s.cpos else 0) tm)
        with stackidx := s.stackidx - 1 }, .ok ()) := by
  simp only [GPTLstop, hd, Bool.false_eq_true, if_false, stop_samples_spec]
  have hdl2 : ¬ cfg.depthlimit < ({ s with
      wpos := s.wpos + (if cfg.wall_enabled = true then 1 else 0),
      cpos := s.cpos + (if cfg.cpu_enabled = true then 1 else 0) } :
      GState).stackidx := hdl
  have hon2 : (({ s with
      wpos := s.wpos + (if cfg.wall_enabled = true then 1 else 0),
      cpos := s.cpos + (if cfg.cpu_enabled = true then 1 else 0) } :
      GState).timer i).onflg = true := hon
  have hilen2 : i < ({ s with
      wpos := s.wpos + (if cfg.wall_enabled = true then 1 else 0),
      cpos := s.cpos + (if cfg.cpu_enabled = true then 1 else 0) } :
      GState).timers.length := hilen
  have hrec2 : (({ s with
      wpos := s.wpos + (if cfg.wall_enabled = true then 1 else 0),
      cpos := s.cpos + (if cfg.cpu_enabled = true then 1 else 0) } :
      GState).timer i).recurselvl = 0 := hrec
  have hneg2 : ¬ ({ s with
      wpos := s.wpos + (if cfg.wall_enabled = true then 1 else 0),
      cpos := s.cpos + (if cfg.cpu_enabled = true then 1 else 0) } :
      GState).stackidx - 1 < -1 := hneg
  rw [stop_part1_final_eq hdl2 hopt hon2 hilen2 hrec2 hneg2]

/-- The wallclock finalization of the outermost stop, on the concrete
region shape of the recursion scenario: the single recorded delta spans
from the start timestamp to the final stop sample. -/
theorem stopFinish_midT (env : Env) (tp1 : ℚ) (c : ℕ) :
    (stopFinish Config.default tp1 0 0 (midT env (c + 1) (c + 1) 0)).count
        = c + 2 ∧
    (stopFinish Config.default tp1 0 0 (midT env (c + 1) (c + 1) 0)).nrecurse
        = c + 1 ∧
    (stopFinish Config.default tp1 0 0
        (midT env (c + 1) (c + 1) 0)).wall.accum
      = 0 + (tp1 - env.wtime 0) ∧
    (stopFinish Config.default tp1 0 0
        (midT env (c + 1) (c + 1) 0)).wall.last = env.wtime 0 ∧
    (stopFinish Config.default tp1 0 0 (midT env (c + 1) (c + 1) 0)).onflg
        = false := by
  refine ⟨?_, ?_, ?_, ?_, ?_⟩
  · rfl
  · rfl
  · simp only [stopFinish, midT, wallApply, Config.default, ite_true,
      Bool.false_eq_true, if_false]
    split_ifs <;> rfl
  · simp only [stopFinish, midT, wallApply, Config.default, ite_true,
      Bool.false_eq_true, if_false]
    split_ifs <;> rfl
  · rfl

/-- C1: `k` nested starts of one region followed by `k` stops all return
ok, leave `count = k` and `nrecurse = k - 1`, and record exactly one
wallclock delta, from the outermost start sample (position 0) to the final
stop sample (position `k`); the start timestamp is never overwritten by the
inner starts. -/
theorem C1_nested_start_stop (env : Env) (k : ℕ) (hk : 2 ≤ k) :
    (run Config.default env (List.replicate k (Op.start rName)
        ++ List.replicate k (Op.stop rName))).2
      = List.replicate (2 * k) (Except.ok ()) ∧
    ((run Config.default env (List.replicate k (Op.start rName)
        ++ List.replicate k (Op.stop rName))).1.timer 1).count = k ∧
    ((run Config.default env (List.replicate k (Op.start rName)
        ++ List.replicate k (Op.stop rName))).1.timer 1).nrecurse = k - 1 ∧
    ((run Config.default env (List.replicate k (Op.start rName)
        ++ List.replicate k (Op.stop rName))).1.timer 1).wall.accum
      = env.wtime k - env.wtime 0 ∧
    ((run Config.default env (List.replicate k (Op.start rName)
        ++ List.replicate k (Op.stop rName))).1.timer 1).wall.last
      = env.wtime 0 ∧
    ((run Config.default env (List.replicate k (Op.start rName)
        ++ List.replicate k (Op.stop rName))).1.timer 1).onflg = false := by
  obtain ⟨m, rfl⟩ : ∃ m, k = m + 2 := ⟨k - 2, by omega⟩
  have hstartsEq : runFrom Config.default env initState
      (List.replicate (m + 2) (Op.start rName))
      = (midS env 0 0 (m + 1) 1,
         Except.ok () :: List.replicate (m + 1) (Except.ok ())) := by
    simp only [List.replicate_succ, runFrom, stepOp_start, start_first env,
      start_again env]
    rw [startPhase env m 1, Nat.add_comm 1 m]
  have hstopsRec : runFrom Config.default env (midS env 0 0 (m + 1) 1)
      (List.replicate (m + 1) (Op.stop rName))
      = (midS env (m + 1) (m + 1) 0 (m + 2),
         List.replicate (m + 1) (Except.ok ())) := by
    have h := stopPhase env (m + 1) 0 1
    rw [Nat.zero_add] at h
    rw [h]
    have h2 : 1 + (m + 1) = m + 2 := by omega
    rw [h2]
  have hfinal : GPTLstop Config.default env rName
      (midS env (m + 1) (m + 1) 0 (m + 2))
      = (finS env m (m + 2), .ok ()) := by
    rw [@GPTLstop_final_eq Config.default env rName
      (midS env (m + 1) (m + 1) 0 (m + 2)) 1 rfl
      (by show ¬ (99999 : ℤ) < 1; decide) rfl rfl
      (by show (1 : ℕ) < 2; decide) rfl
      (by show ¬ (1 : ℤ) - 1 < -1; decide)]
    rfl
  have hrun : run Config.default env
      (List.replicate (m + 2) (Op.start rName)
        ++ List.replicate (m + 2) (Op.stop rName))
      = (finS env m (m + 2),
         (Except.ok () :: List.replicate (m + 1) (Except.ok ()))
           ++ (List.replicate (m + 1) (Except.ok ())
             ++ [Except.ok ()])) := by
    show runFrom Config.default env initState _ = _
    rw [runFrom_append, hstartsEq]
    have hsplit : List.replicate (m + 2) (Op.stop rName)
        = List.replicate (m + 1) (Op.stop rName) ++ [Op.stop rName] :=
      List.replicate_succ' (m + 1) (Op.stop rName)
    rw [hsplit, runFrom_append, hstopsRec]
    simp only [runFrom, stepOp_stop, hfinal]
  have htimer : (finS env m (m + 2)).timer 1
      = stopFinish Config.default (env.wtime (m + 2)) 0 0
          (midT env (m + 1) (m + 1) 0) := rfl
  obtain ⟨hc, hn, ha, hl, ho⟩ :=
    stopFinish_midT env (env.wtime (m + 2)) m
  refine ⟨?_, ?_, ?_, ?_, ?_, ?_⟩
  · simp only [hrun]
    refine List.eq_replicate_iff.mpr ⟨?_, ?_⟩
    · simp only [List.length_append, List.length_cons,
        List.length_replicate, List.length_singleton, List.length_nil]
      omega
    · intro b hb
      simp only [List.mem_append, List.mem_cons, List.mem_replicate,
        List.mem_singleton] at hb
      tauto
  · simp only [hrun]
    rw [htimer]
    exact hc
  · simp only [hrun]
    rw [htimer, hn]
    omega
  · simp only [hrun]
    rw [htimer, ha, zero_add]
  · simp only [hrun]
    rw [htimer, hl]
  · simp only [hrun]
    rw [htimer, ho]

/-! ## Name stability of the engine (claim C10) -/

theorem parentApply_name (p : ℕ) (tm : Timer) :
    (parentApply p tm).name = tm.name := by
  unfold parentApply
  cases tm.parent.findIdx? (fun x => x == p) <;> rfl

theorem startFinish_name (cfg : Config) (env : Env) (wp cp : ℕ)
    (tm : Timer) : (startFinish cfg env wp cp tm).name = tm.name := by
  unfold startFinish
  by_cases hc : cfg.cpu_enabled <;> by_cases hw : cfg.wall_enabled <;>
    simp [hc, hw]

theorem namesExt_refl (s : GState) : NamesExt s s :=
  ⟨le_refl _, fun _ _ => rfl⟩

theorem namesExt_trans {s t u : GState} (h1 : NamesExt s t)
    (h2 : NamesExt t u) : NamesExt s u :=
  ⟨le_trans h1.1 h2.1,
   fun i hi => (h2.2 i (lt_of_lt_of_le hi h1.1)).trans (h1.2 i hi)⟩

theorem namesExt_of_timers_eq {s s' : GState} (h : s'.timers = s.timers) :
    NamesExt s s' := ⟨by rw [h], fun i _ => by rw [h]⟩

theorem namesExt_modT (s : GState) (i : ℕ) (f : Timer → Timer)
    (hf : ∀ tm, (f tm).name = tm.name) : NamesExt s (modT s i f) := by
  refine ⟨by simp [modT], ?_⟩
  intro j hj
  by_cases hji : j = i
  · subst hji
    rw [show (modT s j f).timers.getD j default = (modT s j f).timer j
        from rfl, timer_modT_self s j f hj, hf]
    rfl
  · show ((s.timers.set i (f (s.timer i))).getD j default).name = _
    unfold List.getD
    rw [List.get?_eq_getElem?, List.get?_eq_getElem?, List.getElem?_set,
      if_neg (fun h => hji h.symm)]

theorem namesExt_update_ll_hash (s : GState) (ptr : Timer) (indx : ℕ) :
    NamesExt s (update_ll_hash s ptr indx) := by
  refine ⟨by simp [update_ll_hash], ?_⟩
  intro j hj
  show ((s.timers ++ [ptr]).getD j default).name = _
  unfold List.getD
  rw [List.get?_eq_getElem?, List.get?_eq_getElem?,
    List.getElem?_append_left hj]

theorem namesExt_wrap_modT {s t : GState} (t' : GState) (i : ℕ)
    {f : Timer → Timer} (ht : t'.timers = (modT t i f).timers)
    (hf : ∀ tm, (f tm).name = tm.name) (h : NamesExt s t) : NamesExt s t' :=
  namesExt_trans (namesExt_trans h (namesExt_modT t i f hf))
    (namesExt_of_timers_eq ht)

theorem namesExt_update_ptr (cfg : Config) (env : Env) (i : ℕ)
    (s : GState) : NamesExt s (update_ptr cfg env i s) := by
  rw [update_ptr_eq]
  exact namesExt_wrap_modT _ i rfl
    (startFinish_name cfg env s.wpos s.cpos) (namesExt_refl s)

theorem namesExt_update_parent_info (i : ℕ) (s : GState) :
    NamesExt s (update_parent_info i s).1 := by
  rcases lt_trichotomy s.stackidx 0 with h | h | h
  · rw [update_parent_info_neg i s h]
    exact namesExt_refl s
  · rw [update_parent_info_zero i s h]
    exact namesExt_wrap_modT _ i rfl (fun tm => rfl)
      (namesExt_of_timers_eq rfl)
  · rw [update_parent_info_pos i s h]
    exact namesExt_wrap_modT _ i rfl (parentApply_name _)
      (namesExt_of_timers_eq rfl)

theorem namesExt_start_part3 (cfg : Config) (env : Env) (i : ℕ)
    (s : GState) : NamesExt s (start_part3 cfg env i s).1 := by
  unfold start_part3
  rcases hupd : update_parent_info i s with ⟨sU, rU⟩
  have hU : NamesExt s sU := by
    have h := namesExt_update_parent_info i s
    rw [hupd] at h
    exact h
  cases rU with
  | error e => exact hU
  | ok u => exact namesExt_trans hU (namesExt_update_ptr cfg env i sU)

theorem namesExt_start_part2 (cfg : Config) (env : Env) (name : List Char)
    (optr : Option ℕ) (s : GState) :
    NamesExt s (start_part2 cfg env name optr s).1 := by
  by_cases hov : MAX_STACK - 1 < s.stackidx + 1
  · rw [start_part2_overflow hov]
    exact namesExt_of_timers_eq rfl
  · cases optr with
    | some i =>
      rw [start_part2_found hov]
      exact namesExt_trans (namesExt_of_timers_eq rfl)
        (namesExt_start_part3 cfg env i
          { s with stackidx := s.stackidx + 1 })
    | none =>
      rw [start_part2_new hov]
      have hA : NamesExt s { s with stackidx := s.stackidx + 1 } :=
        namesExt_of_timers_eq rfl
      have hB := namesExt_update_ll_hash
        { s with stackidx := s.stackidx + 1 }
        { Timer.zero with name := name.take MAX_CHARS }
        (genhashidx cfg.tablesize name)
      have hC := namesExt_start_part3 cfg env
        ({ s with stackidx := s.stackidx + 1 } : GState).timers.length
        (update_ll_hash { s with stackidx := s.stackidx + 1 }
          { Timer.zero with name := name.take MAX_CHARS }
          (genhashidx cfg.tablesize name))
      exact namesExt_trans hA (namesExt_trans hB hC)

theorem namesExt_GPTLstart (cfg : Config) (env : Env) (name : List Char)
    (s : GState) : NamesExt s (GPTLstart cfg env name s).1 := by
  unfold GPTLstart
  split_ifs with hd hdl
  · exact namesExt_refl s
  · exact namesExt_of_timers_eq rfl
  · cases hopt : getentry cfg.tablesize s.hashtable s.timers name with
    | some i =>
      by_cases hon : (s.timer i).onflg
      · simp only [hopt, hon, if_pos]
        exact namesExt_modT s i _ (fun tm => rfl)
      · simp only [hopt, hon]
        simpa using namesExt_start_part2 cfg env name (some i) s
    | none =>
      simp only [hopt]
      simpa using namesExt_start_part2 cfg env name none s

theorem namesExt_update_stats (cfg : Config) (i : ℕ) (tp1 : ℚ)
    (usr sys : ℤ) (s : GState) :
    NamesExt s (update_stats cfg i tp1 usr sys s).1 := by
  simp only [update_stats]
  have h1 : NamesExt s (modT s i (fun tm => { tm with onflg := false })) :=
    namesExt_modT s i _ (fun tm => rfl)
  split_ifs with hneg hw hc hc2
  · exact namesExt_trans h1 (namesExt_of_timers_eq rfl)
  · exact namesExt_wrap_modT _ i rfl (fun tm => rfl)
      (namesExt_wrap_modT _ i rfl (fun tm => rfl)
        (namesExt_trans h1 (namesExt_of_timers_eq rfl)))
  · exact namesExt_wrap_modT _ i rfl (fun tm => rfl)
      (namesExt_trans h1 (namesExt_of_timers_eq rfl))
  · exact namesExt_wrap_modT _ i rfl (fun tm => rfl)
      (namesExt_trans h1 (namesExt_of_timers_eq rfl))
  · exact namesExt_trans h1 (namesExt_of_timers_eq rfl)

theorem namesExt_stop_part2 (cfg : Config) (i : ℕ) (tp1 : ℚ)
    (usr sys : ℤ) (s : GState) :
    NamesExt s (stop_part2 cfg i tp1 usr sys s).1 := by
  simp only [stop_part2]
  have h1 : NamesExt s (modT s i (fun tm => { tm with count := tm.count + 1 })) :=
    namesExt_modT s i _ (fun tm => rfl)
  split_ifs with hrec
  · exact namesExt_wrap_modT _ i rfl (fun tm => rfl) h1
  · exact namesExt_trans h1 (namesExt_update_stats cfg i tp1 usr sys _)

theorem namesExt_stop_part1 (cfg : Config) (tp1 : ℚ) (usr sys : ℤ)
    (optr : Option ℕ) (enone : GErr) (s2 : GState) :
    NamesExt s2 (stop_part1 cfg tp1 usr sys optr enone s2).1 := by
  unfold stop_part1
  split_ifs with hdl
  · exact namesExt_of_timers_eq rfl
  · cases optr with
    | none => exact namesExt_refl s2
    | some i =>
      show NamesExt s2 (if (s2.timer i).onflg = false
          then (s2, Except.error GErr.alreadyOff)
          else stop_part2 cfg i tp1 usr sys s2).1
      split_ifs with hoff
      · exact namesExt_refl s2
      · exact namesExt_stop_part2 cfg i tp1 usr sys s2

theorem namesExt_GPTLstop (cfg : Config) (env : Env) (name : List Char)
    (s : GState) : NamesExt s (GPTLstop cfg env name s).1 := by
  simp only [GPTLstop]
  split_ifs with hd
  · exact namesExt_refl s
  · have hsmp : NamesExt s (stop_samples cfg env s).2.2.2 := by
      rw [stop_samples_spec]
      exact namesExt_of_timers_eq rfl
    exact namesExt_trans hsmp (namesExt_stop_part1 cfg _ _ _ _ _ _)

theorem namesExt_stepOp (cfg : Config) (env : Env) (op : Op) (s : GState) :
    NamesExt s (stepOp cfg env op s).1 := by
  cases op with
  | start nm => exact namesExt_GPTLstart cfg env nm s
  | stop nm => exact namesExt_GPTLstop cfg env nm s

theorem namesExt_runFrom (cfg : Config) (env : Env) (ops : List Op) :
    ∀ s : GState, NamesExt s (runFrom cfg env s ops).1 := by
  induction ops with
  | nil => intro s; exact namesExt_refl s
  | cons op rest ih =>
    intro s
    have h1 := namesExt_stepOp cfg env op s
    have h2 := ih (stepOp cfg env op s).1
    simpa only [runFrom] using namesExt_trans h1 h2

/-- The first start on a fresh thread interns the (truncated) name as the
first user region, at list index 1. -/
theorem first_start_name (cfg : Config) (env : Env) (name : List Char)
    (hd : cfg.disabled = false) (hdep : 0 < cfg.depthlimit) :
    1 < (GPTLstart cfg env name initState).1.timers.length ∧
    ((GPTLstart cfg env name initState).1.timers.getD 1 default).name
      = name.take MAX_CHARS := by
  have hdl : ¬ cfg.depthlimit ≤ initState.stackidx := by
    show ¬ cfg.depthlimit ≤ (0 : ℤ)
    omega
  have hov : ¬ MAX_STACK - 1 < initState.stackidx + 1 := by
    show ¬ (128 : ℤ) - 1 < 0 + 1
    decide
  have hge : getentry cfg.tablesize initState.hashtable initState.timers
      name = none := rfl
  have hU : NamesExt
      (update_ll_hash { initState with stackidx := initState.stackidx + 1 }
        { Timer.zero with name := name.take MAX_CHARS }
        (genhashidx cfg.tablesize name))
      (start_part3 cfg env 1
        (update_ll_hash { initState with stackidx := initState.stackidx + 1 }
          { Timer.zero with name := name.take MAX_CHARS }
          (genhashidx cfg.tablesize name))).1 :=
    namesExt_start_part3 cfg env 1 _
  have hU1 : (update_ll_hash
      { initState with stackidx := initState.stackidx + 1 }
      { Timer.zero with name := name.take MAX_CHARS }
      (genhashidx cfg.tablesize name)).timers.length = 2 := rfl
  have hUname : ((update_ll_hash
      { initState with stackidx := initState.stackidx + 1 }
      { Timer.zero with name := name.take MAX_CHARS }
      (genhashidx cfg.tablesize name)).timers.getD 1 default).name
      = name.take MAX_CHARS := rfl
  have hres : 1 < (start_part3 cfg env 1
        (update_ll_hash { initState with stackidx := initState.stackidx + 1 }
          { Timer.zero with name := name.take MAX_CHARS }
          (genhashidx cfg.tablesize name))).1.timers.length ∧
      ((start_part3 cfg env 1
        (update_ll_hash { initState with stackidx := initState.stackidx + 1 }
          { Timer.zero with name := name.take MAX_CHARS }
          (genhashidx cfg.tablesize name))).1.timers.getD 1 default).name
        = name.take MAX_CHARS := by
    constructor
    · have := hU.1
      omega
    · rw [hU.2 1 (by omega), hUname]
  simp only [GPTLstart, hd, Bool.false_eq_true, if_false, hge]
  rw [if_neg hdl]
  simp only [hge]
  rw [start_part2_new hov]
  exact hres

/-- C10: the per-run queries expose exactly the user regions: the sentinel
heads the list but is not counted by get_nregions and no index of
get_regionname reaches it; index 0 names the first region the user
started (truncated to MAX_CHARS, then to the caller's buffer). -/
theorem C10_sentinel_hidden (cfg : Config) (env : Env)
    (hm : Monotone env.wtime) (ops tail : List Op) (name : List Char)
    (nc : ℕ) (hd : cfg.disabled = false) (hdep : 0 < cfg.depthlimit) :
    (∃ rest, (run cfg env ops).1.timers = rootTimer :: rest ∧
      GPTLget_nregions (run cfg env ops).1 = .ok rest.length ∧
      (∀ idx, idx < rest.length →
        GPTLget_regionname (run cfg env ops).1 idx nc
          = .ok ((rest.getD idx default).name.take nc)) ∧
      (∀ idx, rest.length ≤ idx →
        GPTLget_regionname (run cfg env ops).1 idx nc
          = .error .unknownTimer)) ∧
    GPTLget_regionname (run cfg env (Op.start name :: tail)).1 0 nc
      = .ok ((name.take MAX_CHARS).take nc) := by
  constructor
  · obtain ⟨⟨rest, hrest, hreg⟩, _⟩ := @stateInv_run cfg env hm ops
    refine ⟨rest, hrest, ?_, ?_, ?_⟩
    · unfold GPTLget_nregions
      rw [hrest]
      rfl
    · intro idx hidx
      unfold GPTLget_regionname
      rw [hrest]
      have h1 : ((rootTimer :: rest).drop 1).get? idx = some rest[idx] := by
        rw [List.get?_eq_getElem?]
        exact List.getElem?_eq_getElem hidx
      rw [h1, List.getD_eq_getElem rest default hidx]
    · intro idx hidx
      unfold GPTLget_regionname
      rw [hrest]
      have h1 : ((rootTimer :: rest).drop 1).get? idx = none := by
        rw [List.get?_eq_getElem?]
        exact List.getElem?_eq_none hidx
      rw [h1]
  · obtain ⟨hlen, hnm⟩ := first_start_name cfg env name hd hdep
    have hext := namesExt_runFrom cfg env tail
      (GPTLstart cfg env name initState).1
    have hlen2 : 1 < (runFrom cfg env (GPTLstart cfg env name initState).1
        tail).1.timers.length := lt_of_lt_of_le hlen hext.1
    have hnm2 : ((runFrom cfg env (GPTLstart cfg env name initState).1
        tail).1.timers.getD 1 default).name = name.take MAX_CHARS := by
      rw [hext.2 1 hlen, hnm]
    have hfin : GPTLget_regionname
        (runFrom cfg env (GPTLstart cfg env name initState).1 tail).1 0 nc
        = .ok ((name.take MAX_CHARS).take nc) := by
      unfold GPTLget_regionname
      have h1 : ((runFrom cfg env (GPTLstart cfg env name initState).1
            tail).1.timers.drop 1).get? 0
          = some ((runFrom cfg env (GPTLstart cfg env name initState).1
            tail).1.timers.getD 1 default) := by
        rw [List.get?_eq_getElem?, List.getElem?_drop,
          List.getElem?_eq_getElem hlen2,
          List.getD_eq_getElem _ default hlen2]
      rw [h1]
      show Except.ok (List.take nc ((runFrom cfg env
          (GPTLstart cfg env name initState).1 tail).1.timers.getD 1
            default).name)
        = Except.ok (List.take nc (List.take MAX_CHARS name))
      rw [hnm2]
    exact hfin

theorem C10_sentinel_hidden_witness :
    (∃ rest, (run Config.default envId [Op.start rName]).1.timers
        = rootTimer :: rest ∧
      GPTLget_nregions (run Config.default envId [Op.start rName]).1
        = .ok rest.length ∧
      (∀ idx, idx < rest.length →
        GPTLget_regionname (run Config.default envId [Op.start rName]).1
            idx 1
          = .ok ((rest.getD idx default).name.take 1)) ∧
      (∀ idx, rest.length ≤ idx →
        GPTLget_regionname (run Config.default envId [Op.start rName]).1
            idx 1
          = .error .unknownTimer)) ∧
    GPTLget_regionname
        (run Config.default envId (Op.start rName :: [Op.stop rName])).1 0 1
      = .ok ((rName.take MAX_CHARS).take 1) :=
  C10_sentinel_hidden Config.default envId envId_mono [Op.start rName]
    [Op.stop rName] rName 1 rfl (by decide)

theorem C1_nested_start_stop_witness :
    (run Config.default envId (List.replicate 3 (Op.start rName)
        ++ List.replicate 3 (Op.stop rName))).2
      = List.replicate (2 * 3) (Except.ok ()) ∧
    ((run Config.default envId (List.replicate 3 (Op.start rName)
        ++ List.replicate 3 (Op.stop rName))).1.timer 1).count = 3 ∧
    ((run Config.default envId (List.replicate 3 (Op.start rName)
        ++ List.replicate 3 (Op.stop rName))).1.timer 1).nrecurse = 3 - 1 ∧
    ((run Config.default envId (List.replicate 3 (Op.start rName)
        ++ List.replicate 3 (Op.stop rName))).1.timer 1).wall.accum
      = envId.wtime 3 - envId.wtime 0 ∧
    ((run Config.default envId (List.replicate 3 (Op.start rName)
        ++ List.replicate 3 (Op.stop rName))).1.timer 1).wall.last
      = envId.wtime 0 ∧
    ((run Config.default envId (List.replicate 3 (Op.start rName)
        ++ List.replicate 3 (Op.stop rName))).1.timer 1).onflg = false :=
  C1_nested_start_stop envId 3 (by decide)

/-! ## Call-tree reachability and cycle prevention (claim C5) -/

theorem isDesc_sound (l : List Timer) :
    ∀ fuel i j, isDesc l fuel i j = true →
      Relation.TransGen (edgeP l) i j := by
  intro fuel
  induction fuel with
  | zero => intro i j h; simp [isDesc] at h
  | succ n ih =>
    intro i j h
    simp only [isDesc, Bool.or_eq_true, List.any_eq_true] at h
    rcases h with ⟨c, hc, hcj⟩ | ⟨c, hc, hrec⟩
    · have hcj2 : c = j := by simpa using hcj
      subst hcj2
      exact Relation.TransGen.single hc
    · exact Relation.TransGen.head hc (ih c j hrec)

theorem isDesc_mono (l : List Timer) :
    ∀ f1 f2 i j, f1 ≤ f2 → isDesc l f1 i j = true →
      isDesc l f2 i j = true := by
  intro f1
  induction f1 with
  | zero => intro f2 i j _ h; simp [isDesc] at h
  | succ n ih =>
    intro f2 i j hle h
    obtain ⟨m, rfl⟩ : ∃ m, f2 = m + 1 := ⟨f2 - 1, by omega⟩
    simp only [isDesc, Bool.or_eq_true, List.any_eq_true] at h ⊢
    rcases h with h | ⟨c, hc, hrec⟩
    · exact Or.inl h
    · exact Or.inr ⟨c, hc, ih m c j (by omega) hrec⟩

theorem isPath_isDesc (l : List Timer) :
    ∀ vs i j, isPath l i vs j → isDesc l (vs.length + 1) i j = true := by
  intro vs
  induction vs with
  | nil =>
    intro i j h
    simp only [isDesc, Bool.or_eq_true, List.any_eq_true]
    exact Or.inl ⟨j, h, by simp⟩
  | cons v vs ih =>
    intro i j h
    simp only [isDesc, Bool.or_eq_true, List.any_eq_true, List.length_cons]
    refine Or.inr ⟨v, h.1, ?_⟩
    simpa only [isDesc, Bool.or_eq_true, List.any_eq_true]
      using ih v j h.2

theorem isPath_snoc (l : List Timer) :
    ∀ vs i b j, isPath l i vs b → edgeP l b j →
      isPath l i (vs ++ [b]) j := by
  intro vs
  induction vs with
  | nil => intro i b j h1 h2; exact ⟨h1, h2⟩
  | cons v vs ih => intro i b j h1 h2; exact ⟨h1.1, ih v b j h1.2 h2⟩

theorem transGen_isPath (l : List Timer) {i j : ℕ}
    (h : Relation.TransGen (edgeP l) i j) : ∃ vs, isPath l i vs j := by
  induction h with
  | single hb => exact ⟨[], hb⟩
  | tail hab hbc ih =>
    obtain ⟨vs, hvs⟩ := ih
    exact ⟨vs ++ [_], isPath_snoc l vs i _ _ hvs hbc⟩

theorem isPath_suffix (l : List Timer) :
    ∀ as v bs i j, isPath l i (as ++ v :: bs) j → isPath l v bs j := by
  intro as
  induction as with
  | nil => intro v bs i j h; exact h.2
  | cons a as ih => intro v bs i j h; exact ih v bs a j h.2

theorem isPath_shorten (l : List Timer) :
    ∀ n vs i j, vs.length ≤ n → isPath l i vs j →
      ∃ ws, ws.length ≤ vs.length ∧ isPath l i ws j ∧ (i :: ws).Nodup := by
  intro n
  induction n with
  | zero =>
    intro vs i j hlen h
    have hnil : vs = [] := List.eq_nil_of_length_eq_zero (by omega)
    subst hnil
    exact ⟨[], le_refl _, h, by simp⟩
  | succ n ih =>
    intro vs i j hlen h
    cases vs with
    | nil => exact ⟨[], le_refl _, h, by simp⟩
    | cons v vs =>
      obtain ⟨h1, h2⟩ := h
      obtain ⟨ws, hwl, hwp, hwn⟩ := ih vs v j (by simpa using hlen) h2
      by_cases hmem : i ∈ v :: ws
      · obtain ⟨as, bs, hsplit⟩ := List.append_of_mem hmem
        have hpath2 : isPath l i (v :: ws) j := ⟨h1, hwp⟩
        rw [hsplit] at hpath2
        have hbs : isPath l i bs j := isPath_suffix l as i bs i j hpath2
        have hbslen : bs.length ≤ n := by
          have : (v :: ws).length = as.length + (bs.length + 1) := by
            rw [hsplit]
            simp [List.length_append]
          simp only [List.length_cons] at this hlen
          omega
        obtain ⟨us, hul, hup, hun⟩ := ih bs i j hbslen hbs
        refine ⟨us, ?_, hup, hun⟩
        have : (v :: ws).length = as.length + (bs.length + 1) := by
          rw [hsplit]
          simp [List.length_append]
        simp only [List.length_cons] at this ⊢
        omega
      · refine ⟨v :: ws, by simpa using Nat.add_le_add_right hwl 1, ⟨h1, hwp⟩, ?_⟩
        rw [List.nodup_cons]
        exact ⟨hmem, hwn⟩

theorem isPath_nodes_bound (l : List Timer) :
    ∀ vs i j, isPath l i vs j → ∀ v ∈ i :: vs, v < l.length := by
  have hout : ∀ i j, edgeP l i j → i < l.length := by
    intro i j h
    by_contra hge
    have hde : l.getD i default = default := List.getD_eq_default l default (by omega)
    have : j ∈ ([] : List ℕ) := by
      have h2 : j ∈ childrenOf l i := h
      unfold childrenOf at h2
      rw [hde] at h2
      exact h2
    simp at this
  intro vs
  induction vs with
  | nil =>
    intro i j h v hv
    have hvi : v = i := by simpa using hv
    subst hvi
    exact hout v j h
  | cons w vs ih =>
    intro i j h v hv
    rcases List.mem_cons.mp hv with rfl | hv2
    · exact hout v w h.1
    · exact ih w j h.2 v hv2

theorem nodup_nat_bound {xs : List ℕ} {L : ℕ} (hn : xs.Nodup)
    (hb : ∀ v ∈ xs, v < L) : xs.length ≤ L := by
  have h1 : xs.toFinset.card = xs.length := List.toFinset_card_of_nodup hn
  have h2 : xs.toFinset ⊆ Finset.range L := by
    intro v hv
    rw [List.mem_toFinset] at hv
    rw [Finset.mem_range]
    exact hb v hv
  have h3 := Finset.card_le_card h2
  rw [h1, Finset.card_range] at h3
  exact h3

/-- With fuel the list length, the descendant scan decides reachability in
one or more edge steps exactly. -/
theorem isDesc_iff (l : List Timer) (i j : ℕ) :
    isDesc l l.length i j = true ↔ Relation.TransGen (edgeP l) i j := by
  constructor
  · exact isDesc_sound l l.length i j
  · intro h
    obtain ⟨vs, hvs⟩ := transGen_isPath l h
    obtain ⟨ws, hwl, hwp, hwn⟩ :=
      isPath_shorten l vs.length vs i j (le_refl _) hvs
    have hb := isPath_nodes_bound l ws i j hwp
    have hlb : ws.length + 1 ≤ l.length := by
      have := nodup_nat_bound hwn hb
      simpa using this
    exact isDesc_mono l (ws.length + 1) l.length i j hlb
      (isPath_isDesc l ws i j hwp)

theorem newchild_accept_iff (l : List Timer) (p c : ℕ) :
    (newchild l p c).2 = .ok () ↔
      ¬ Relation.ReflTransGen (edgeP l) c p := by
  rw [Relation.reflTransGen_iff_eq_or_transGen]
  unfold newchild
  by_cases hpc : p = c
  · simp [hpc]
  · by_cases hdesc : isDesc l l.length c p
    · rw [if_neg hpc, if_pos hdesc]
      have ht := (isDesc_iff l c p).mp hdesc
      simp [ht]
    · rw [if_neg hpc, if_neg hdesc]
      have hnt : ¬ Relation.TransGen (edgeP l) c p :=
        fun ht => hdesc ((isDesc_iff l c p).mpr ht)
      simp [hpc, hnt]

theorem newchild_reject_frame (l : List Timer) (p c : ℕ)
    (hr : Relation.ReflTransGen (edgeP l) c p) :
    (newchild l p c).1 = l := by
  rw [Relation.reflTransGen_iff_eq_or_transGen] at hr
  unfold newchild
  rcases hr with rfl | ht
  · simp
  · have hdesc := (isDesc_iff l c p).mpr ht
    by_cases hpc : p = c
    · simp [hpc]
    · rw [if_neg hpc, if_pos hdesc]

theorem newchild_accept_frame (l : List Timer) (p c : ℕ)
    (hr : ¬ Relation.ReflTransGen (edgeP l) c p) :
    (newchild l p c).1
      = l.set p { l.getD p default with
          children := (l.getD p default).children ++ [c] } := by
  rw [Relation.reflTransGen_iff_eq_or_transGen] at hr
  simp only [not_or] at hr
  have hdesc : ¬ isDesc l l.length c p = true :=
    fun h => hr.2 ((isDesc_iff l c p).mp h)
  unfold newchild
  rw [if_neg hr.1, if_neg hdesc]

/-- Every edge after an accepted `newchild` is an old edge or the accepted
one. -/
theorem edgeP_newchild_imp (l : List Timer) (p c : ℕ) :
    ∀ i j, edgeP (newchild l p c).1 i j →
      edgeP l i j ∨ (i = p ∧ j = c) := by
  intro i j h
  by_cases hr : Relation.ReflTransGen (edgeP l) c p
  · rw [newchild_reject_frame l p c hr] at h
    exact Or.inl h
  · rw [newchild_accept_frame l p c hr] at h
    by_cases hip : i = p
    · subst hip
      by_cases hlen : i < l.length
      · have hrd : ((l.set i { l.getD i default with
            children := (l.getD i default).children ++ [c] }).getD i
              default)
            = { l.getD i default with
                children := (l.getD i default).children ++ [c] } := by
          unfold List.getD
          rw [List.get?_eq_getElem?, List.getElem?_set,
            if_pos rfl, if_pos hlen]
          rfl
        have h2 : j ∈ childrenOf (l.set i { l.getD i default with
            children := (l.getD i default).children ++ [c] }) i := h
        unfold childrenOf at h2
        rw [hrd] at h2
        rcases List.mem_append.mp h2 with h3 | h3
        · exact Or.inl h3
        · have : j = c := by simpa using h3
          exact Or.inr ⟨rfl, this⟩
      · have hset : l.set i { l.getD i default with
            children := (l.getD i default).children ++ [c] } = l :=
          List.set_eq_of_length_le (by omega)
        rw [hset] at h
        exact Or.inl h
    · have h2 : j ∈ childrenOf (l.set p { l.getD p default with
          children := (l.getD p default).children ++ [c] }) i := h
      unfold childrenOf at h2
      rw [show ((l.set p { l.getD p default with
          children := (l.getD p default).children ++ [c] }).getD i default)
          = l.getD i default by
        unfold List.getD
        simp only [List.get?_eq_getElem?]
        rw [List.getElem?_set, if_neg (fun hh => hip hh.symm)]] at h2
      exact Or.inl h2

theorem transGen_newchild_decompose (l : List Timer) (p c : ℕ) :
    ∀ a b, Relation.TransGen (edgeP (newchild l p c).1) a b →
      Relation.TransGen (edgeP l) a b ∨
        (Relation.ReflTransGen (edgeP l) a p ∧
         Relation.ReflTransGen (edgeP l) c b) := by
  intro a b h
  induction h with
  | single hab =>
    rcases edgeP_newchild_imp l p c _ _ hab with he | ⟨rfl, rfl⟩
    · exact Or.inl (Relation.TransGen.single he)
    · exact Or.inr ⟨Relation.ReflTransGen.refl, Relation.ReflTransGen.refl⟩
  | tail hab hbc ih =>
    rcases edgeP_newchild_imp l p c _ _ hbc with he | ⟨rfl, rfl⟩
    · rcases ih with h1 | ⟨h1, h2⟩
      · exact Or.inl (h1.tail he)
      · exact Or.inr ⟨h1, h2.tail he⟩
    · rcases ih with h1 | ⟨h1, _⟩
      · exact Or.inr ⟨h1.to_reflTransGen, Relation.ReflTransGen.refl⟩
      · exact Or.inr ⟨h1, Relation.ReflTransGen.refl⟩

theorem acyclic_newchild (l : List Timer) (p c : ℕ)
    (hac : Acyclic l) : Acyclic (newchild l p c).1 := by
  by_cases hr : Relation.ReflTransGen (edgeP l) c p
  · rw [newchild_reject_frame l p c hr]
    exact hac
  · intro i hcy
    rcases transGen_newchild_decompose l p c i i hcy with h1 | ⟨h1, h2⟩
    · exact hac i h1
    · exact hr (h2.trans h1)

theorem acyclic_newchild_foldl (cur : ℕ) :
    ∀ ps : List ℕ, ∀ acc : List Timer, Acyclic acc →
      Acyclic (ps.foldl (fun a p => (newchild a p cur).1) acc) := by
  intro ps
  induction ps with
  | nil => intro acc h; exact h
  | cons p ps ih =>
    intro acc h
    exact ih (newchild acc p cur).1 (acyclic_newchild acc p cur h)

theorem acyclic_construct_tree (l : List Timer) (m : Method)
    (hac : Acyclic l) : Acyclic (construct_tree l m) := by
  unfold construct_tree
  have hstep : ∀ idxs : List ℕ, ∀ acc : List Timer, Acyclic acc →
      Acyclic (idxs.foldl (fun acc cur =>
        let tm := acc.getD cur default
        match m with
        | .first_parent =>
          match tm.parent with
          | [] => acc
          | p :: _ => (newchild acc p cur).1
        | .last_parent =>
          match tm.parent.getLast? with
          | none => acc
          | some p => (newchild acc p cur).1
        | .most_frequent =>
          match mostFreqParent tm.parent tm.parent_count with
          | none => acc
          | some p => (newchild acc p cur).1
        | .full_tree =>
          tm.parent.foldl (fun a p => (newchild a p cur).1) acc) acc) := by
    intro idxs
    induction idxs with
    | nil => intro acc h; exact h
    | cons cur idxs ih =>
      intro acc h
      refine ih _ ?_
      cases m with
      | first_parent =>
        show Acyclic (match (acc.getD cur default).parent with
          | [] => acc
          | p :: _ => (newchild acc p cur).1)
        cases hp : (acc.getD cur default).parent with
        | nil => exact h
        | cons p t => exact acyclic_newchild acc p cur h
      | last_parent =>
        show Acyclic (match (acc.getD cur default).parent.getLast? with
          | none => acc
          | some p => (newchild acc p cur).1)
        cases hp : (acc.getD cur default).parent.getLast? with
        | none => exact h
        | some p => exact acyclic_newchild acc p cur h
      | most_frequent =>
        show Acyclic (match mostFreqParent (acc.getD cur default).parent
            (acc.getD cur default).parent_count with
          | none => acc
          | some p => (newchild acc p cur).1)
        cases hp : mostFreqParent (acc.getD cur default).parent
            (acc.getD cur default).parent_count with
        | none => exact h
        | some p => exact acyclic_newchild acc p cur h
      | full_tree =>
        exact acyclic_newchild_foldl cur
          (acc.getD cur default).parent acc h
  exact hstep (List.range l.length) l hac

theorem acyclic_of_no_edges {l : List Timer}
    (h : ∀ i, childrenOf l i = []) : Acyclic l := by
  intro i hcy
  cases hcy with
  | single he => simp [edgeP, h] at he
  | tail _ he => simp [edgeP, h] at he

/-- C5 (amended): a proposed parent edge is accepted exactly when the
parent is not already reachable from the child (equality included);
rejection leaves the list unchanged, acceptance appends exactly the one
child entry; consequently construction under any method preserves
acyclicity, and the constructed relation on an edge-free input (as the
engine produces) is always acyclic.  The further claim that every region
ends up reachable from the sentinel root is refuted separately. -/
theorem C5_newchild_cycle_prevention (l : List Timer) (p c : ℕ)
    (m : Method) :
    ((newchild l p c).2 = .ok () ↔
      ¬ Relation.ReflTransGen (edgeP l) c p) ∧
    (Relation.ReflTransGen (edgeP l) c p → (newchild l p c).1 = l) ∧
    (¬ Relation.ReflTransGen (edgeP l) c p →
      (newchild l p c).1
        = l.set p { l.getD p default with
            children := (l.getD p default).children ++ [c] }) ∧
    (Acyclic l → Acyclic (construct_tree l m)) ∧
    ((∀ i, childrenOf l i = []) → Acyclic (construct_tree l m)) :=
  ⟨newchild_accept_iff l p c,
   newchild_reject_frame l p c,
   newchild_accept_frame l p c,
   acyclic_construct_tree l m,
   fun h => acyclic_construct_tree l m (acyclic_of_no_edges h)⟩

/-- On a concrete run, the full_tree construction leaves region C (list
index 3, a genuine region of the run) unreachable from the sentinel root:
its only proposed parent edge is rejected by the cycle check. -/
theorem C5_counterexample :
    ¬ Relation.ReflTransGen
        (edgeP (construct_tree (run Config.default envId ops5).1.timers
          Method.full_tree)) 0 3 ∧
    (construct_tree (run Config.default envId ops5).1.timers
        Method.full_tree).length = 4 ∧
    ((construct_tree (run Config.default envId ops5).1.timers
        Method.full_tree).getD 3 default).name = ['C'] := by
  have hrun : (run Config.default envId ops5).1.timers = tr5 := by
    with_unfolding_all decide
  rw [hrun]
  have hc0 : childrenOf (construct_tree tr5 Method.full_tree) 0 = [1, 2] := by
    with_unfolding_all decide
  have hc1 : childrenOf (construct_tree tr5 Method.full_tree) 1 = [2] := by
    with_unfolding_all decide
  have hc2 : childrenOf (construct_tree tr5 Method.full_tree) 2 = [] := by
    with_unfolding_all decide
  refine ⟨?_, by with_unfolding_all decide, by with_unfolding_all decide⟩
  have hreach : ∀ x, Relation.ReflTransGen
      (edgeP (construct_tree tr5 Method.full_tree)) 0 x →
      x = 0 ∨ x = 1 ∨ x = 2 := by
    intro x h
    induction h with
    | refl => exact Or.inl rfl
    | tail hab hbc ih =>
      rcases ih with rfl | rfl | rfl
      · have h2 : _ ∈ childrenOf _ _ := hbc
        rw [hc0] at h2
        simp at h2
        tauto
      · have h2 : _ ∈ childrenOf _ _ := hbc
        rw [hc1] at h2
        simp at h2
        tauto
      · have h2 : _ ∈ childrenOf _ _ := hbc
        rw [hc2] at h2
        simp at h2
  intro h
  rcases hreach 3 h with h3 | h3 | h3 <;> exact absurd h3 (by decide)

/-! ## Handle-based calls simulate name-based calls (claim C8) -/

theorem find?_congrP {α : Type} (l : List α) (p q : α → Bool)
    (h : ∀ a, p a = q a) : l.find? p = l.find? q := by
  induction l with
  | nil => rfl
  | cons a t ih => simp only [List.find?, h a, ih]

theorem getentry_congr {ts : ℕ} {ht ht' : ℕ → List ℕ}
    {l l' : List Timer}
    (hh : ∀ b, ht' b = ht b)
    (hn : ∀ i, (l'.getD i default).name = (l.getD i default).name)
    (nm : List Char) :
    getentry ts ht' l' nm = getentry ts ht l nm := by
  unfold getentry
  rw [hh]
  exact find?_congrP _ _ _ (fun i => by rw [hn i])

theorem getentry_coreEq {ts : ℕ} {s s' : GState} (h : CoreEq s s')
    (nm : List Char) :
    getentry ts s'.hashtable s'.timers nm
      = getentry ts s.hashtable s.timers nm :=
  getentry_congr h.1 h.2 nm

theorem coreEq_refl (s : GState) : CoreEq s s :=
  ⟨fun _ => rfl, fun _ => rfl⟩

theorem coreEq_trans {s t u : GState} (h1 : CoreEq s t) (h2 : CoreEq t u) :
    CoreEq s u :=
  ⟨fun b => (h2.1 b).trans (h1.1 b), fun j => (h2.2 j).trans (h1.2 j)⟩

theorem coreEq_of_core {s s' : GState} (ht : s'.timers = s.timers)
    (hh : s'.hashtable = s.hashtable) : CoreEq s s' :=
  ⟨fun b => by rw [hh], fun j => by rw [ht]⟩

theorem coreEq_modT (s : GState) (i : ℕ) (f : Timer → Timer)
    (hf : ∀ tm, (f tm).name = tm.name) : CoreEq s (modT s i f) := by
  refine ⟨fun b => rfl, ?_⟩
  intro j
  by_cases hj : j < s.timers.length
  · exact (namesExt_modT s i f hf).2 j hj
  · show ((s.timers.set i (f (s.timer i))).getD j default).name = _
    rw [List.getD_eq_default _ _ (by simp only [List.length_set]; omega),
      List.getD_eq_default _ _ (by omega)]

theorem coreEq_wrap_modT {s t : GState} (t' : GState) (i : ℕ)
    {f : Timer → Timer}
    (ht : t'.timers = (modT t i f).timers)
    (hh : t'.hashtable = (modT t i f).hashtable)
    (hf : ∀ tm, (f tm).name = tm.name) (h : CoreEq s t) : CoreEq s t' :=
  coreEq_trans (coreEq_trans h (coreEq_modT t i f hf))
    (coreEq_of_core ht hh)

theorem onflg_modT_other {s : GState} {i : ℕ} {f : Timer → Timer}
    (hf : ∀ tm, (f tm).onflg = tm.onflg) (j : ℕ) :
    ((modT s i f).timer j).onflg = (s.timer j).onflg := by
  by_cases hji : j = i
  · subst hji
    by_cases hj : j < s.timers.length
    · rw [timer_modT_self s j f hj, hf]
    · show (((s.timers.set j (f (s.timer j))).getD j default)).onflg
          = ((s.timers.getD j default)).onflg
      rw [List.getD_eq_default _ _ (by simp only [List.length_set]; omega),
        List.getD_eq_default _ _ (by omega)]
  · show (((s.timers.set i (f (s.timer i))).getD j default)).onflg
        = ((s.timers.getD j default)).onflg
    unfold List.getD
    simp only [List.get?_eq_getElem?]
    rw [List.getElem?_set, if_neg (fun hh => hji hh.symm)]

theorem genhashidx_take (ts : ℕ) (name : List Char) :
    genhashidx ts (name.take MAX_CHARS) = genhashidx ts name := by
  unfold genhashidx
  rw [List.take_take]
  simp

theorem getentry_name {ts : ℕ} {ht : ℕ → List ℕ} {timers : List Timer}
    {nm : List Char} {j : ℕ}
    (h : getentry ts ht timers nm = some j) :
    (timers.getD j default).name = nm := by
  unfold getentry at h
  have h2 := List.find?_some h
  exact eq_of_beq h2

/-- Looking a name up after interning a fresh entry: the new entry is
found exactly when the old table missed and the stored (truncated) name
equals the query. -/
theorem getentry_after_intern {ts : ℕ} {s : GState} {name : List Char}
    {s' : GState}
    (hbound : ∀ b i, i ∈ s.hashtable b → i < s.timers.length)
    (hht : ∀ b, s'.hashtable b
      = (if b = genhashidx ts name
         then s.hashtable b ++ [s.timers.length] else s.hashtable b))
    (hnames : ∀ j, j < s.timers.length →
      (s'.timers.getD j default).name = (s.timers.getD j default).name)
    (hnew : (s'.timers.getD s.timers.length default).name
      = name.take MAX_CHARS)
    (nm : List Char) :
    getentry ts s'.hashtable s'.timers nm
      = (getentry ts s.hashtable s.timers nm).or
          (if name.take MAX_CHARS = nm
           then some s.timers.length else none) := by
  have hold : ∀ bkt : List ℕ, (∀ i ∈ bkt, i < s.timers.length) →
      bkt.find? (fun i => (s'.timers.getD i default).name == nm)
        = bkt.find? (fun i => (s.timers.getD i default).name == nm) := by
    intro bkt
    induction bkt with
    | nil => intro _; rfl
    | cons a t ih =>
      intro hb
      have ha : a < s.timers.length := hb a (List.mem_cons_self a t)
      simp only [List.find?, hnames a ha,
        ih (fun i hi => hb i (List.mem_cons_of_mem a hi))]
  unfold getentry
  by_cases hbq : genhashidx ts nm = genhashidx ts name
  · rw [hht, if_pos hbq, hbq, List.find?_append,
      hold (s.hashtable (genhashidx ts name))
        (fun i hi => hbound (genhashidx ts name) i hi)]
    congr 1
    show List.find? (fun i => (s'.timers.getD i default).name == nm)
        [s.timers.length] = _
    simp only [List.find?, hnew]
    cases hc : (List.take MAX_CHARS name == nm) with
    | true => rw [if_pos (eq_of_beq hc)]
    | false =>
      rw [if_neg (by
        intro he
        rw [he] at hc
        simp at hc)]
  · rw [hht, if_neg hbq,
      hold (s.hashtable (genhashidx ts nm))
        (fun i hi => hbound (genhashidx ts nm) i hi)]
    have hcond : ¬ name.take MAX_CHARS = nm := by
      intro he
      rw [← he, genhashidx_take] at hbq
      exact hbq rfl
    cases hres : (s.hashtable (genhashidx ts nm)).find?
        (fun i => (s.timers.getD i default).name == nm) with
    | some v => rfl
    | none =>
      show none = (if List.take MAX_CHARS name = nm
          then some s.timers.length else none)
      rw [if_neg hcond]

theorem timer_modT_other {s : GState} {i : ℕ} (f : Timer → Timer) {j : ℕ}
    (hj : j ≠ i) : (modT s i f).timer j = s.timer j := by
  show ((s.timers.set i (f (s.timer i))).getD j default) = s.timers.getD j default
  unfold List.getD
  simp only [List.get?_eq_getElem?]
  rw [List.getElem?_set, if_neg (fun hh => hj hh.symm)]

theorem timer_modT_oob {s : GState} {i : ℕ} (f : Timer → Timer) {j : ℕ}
    (hj : ¬ j < s.timers.length) : (modT s i f).timer j = s.timer j := by
  show ((s.timers.set i (f (s.timer i))).getD j default) = s.timers.getD j default
  rw [List.getD_eq_default _ _ (by simp only [List.length_set]; omega),
    List.getD_eq_default _ _ (by omega)]

theorem onflg_modT_imp {s : GState} {i : ℕ} {f : Timer → Timer}
    (hf : ∀ tm, (f tm).onflg = true → tm.onflg = true) (j : ℕ) :
    ((modT s i f).timer j).onflg = true → (s.timer j).onflg = true := by
  by_cases hji : j = i
  · subst hji
    by_cases hj : j < s.timers.length
    · rw [timer_modT_self s j f hj]
      exact hf _
    · rw [timer_modT_oob f hj]
      exact fun h => h
  · rw [timer_modT_other f hji]
    exact fun h => h

theorem parentApply_onflg (p : ℕ) (tm : Timer) :
    (parentApply p tm).onflg = tm.onflg := by
  unfold parentApply
  cases tm.parent.findIdx? (fun x => x == p) <;> rfl

theorem timer_update_ll_hash_lt (s : GState) (ptr : Timer) (indx : ℕ)
    {j : ℕ} (hj : j < s.timers.length) :
    (update_ll_hash s ptr indx).timer j = s.timer j := by
  show ((s.timers ++ [ptr]).getD j default) = s.timers.getD j default
  unfold List.getD
  simp only [List.get?_eq_getElem?]
  rw [List.getElem?_append_left hj]

theorem timer_update_ll_hash_self (s : GState) (ptr : Timer) (indx : ℕ) :
    (update_ll_hash s ptr indx).timer s.timers.length = ptr := by
  show ((s.timers ++ [ptr]).getD s.timers.length default) = ptr
  unfold List.getD
  simp only [List.get?_eq_getElem?]
  rw [List.getElem?_append_right (le_refl _)]
  simp

theorem timer_update_ll_hash_gt (s : GState) (ptr : Timer) (indx : ℕ)
    {j : ℕ} (hj : s.timers.length < j) :
    (update_ll_hash s ptr indx).timer j = default := by
  show ((s.timers ++ [ptr]).getD j default) = default
  rw [List.getD_eq_default _ _
    (by simp only [List.length_append, List.length_singleton]; omega)]

theorem coreEq_update_ptr (cfg : Config) (env : Env) (i : ℕ) (s : GState) :
    CoreEq s (update_ptr cfg env i s) := by
  rw [update_ptr_eq]
  exact coreEq_trans
    (coreEq_modT s i (fun tm => startFinish cfg env s.wpos s.cpos tm)
      (fun tm => startFinish_name cfg env s.wpos s.cpos tm))
    (coreEq_of_core rfl rfl)

theorem timer_update_ptr_other (cfg : Config) (env : Env) (i : ℕ)
    (s : GState) {j : ℕ} (hj : j ≠ i) :
    (update_ptr cfg env i s).timer j = s.timer j := by
  rw [update_ptr_eq]
  exact timer_modT_other _ hj

/-- Correctness of a handle store survives passing to a state with the same
lookup data whose regions have only been switched off, never on. -/
theorem hinv_transport {cfg : Config} {s s' : GState} {hmap : HMap}
    (hc : CoreEq s s')
    (hon : ∀ j, (s'.timer j).onflg = true → (s.timer j).onflg = true)
    (hH : HInv cfg s hmap) : HInv cfg s' hmap := by
  intro nm i
  constructor
  · intro h
    rw [getentry_coreEq hc]
    exact (hH nm i).1 h
  · intro h1 h2
    rw [getentry_coreEq hc] at h1
    exact (hH nm i).2 h1 (hon i h2)

/-- Rewriting one name's cached handle to the value it already holds keeps
the handle store correct. -/
theorem hinv_update_self {cfg : Config} {s : GState} {hmap : HMap}
    (hH : HInv cfg s hmap) (name : List Char) {v : Option ℕ}
    (hv : v = hmap name) :
    HInv cfg s (fun nm => if nm = name then v else hmap nm) := by
  intro nm i
  by_cases hnm : nm = name
  · simp only [if_pos hnm, hv, hnm]
    exact hH name i
  · simp only [if_neg hnm]
    exact hH nm i

theorem coreOn_update_parent_info (i : ℕ) (s : GState) :
    CoreEq s (update_parent_info i s).1 ∧
    ∀ j, (((update_parent_info i s).1).timer j).onflg = (s.timer j).onflg := by
  rcases lt_trichotomy s.stackidx 0 with hneg | hzero | hpos
  · rw [update_parent_info_neg i s hneg]
    exact ⟨coreEq_refl s, fun j => rfl⟩
  · rw [update_parent_info_zero i s hzero]
    have hX : CoreEq s
        { s with callstack := fun j => if j = 0 then i else s.callstack j } :=
      coreEq_of_core rfl rfl
    refine ⟨coreEq_trans hX (coreEq_modT _ i _ (fun tm => rfl)), ?_⟩
    intro j
    refine Eq.trans (onflg_modT_other ?_ j) rfl
    exact fun tm => rfl
  · rw [update_parent_info_pos i s hpos]
    have hX : CoreEq s
        { s with callstack :=
            fun j => if j = s.stackidx.toNat then i else s.callstack j } :=
      coreEq_of_core rfl rfl
    refine ⟨coreEq_trans hX (coreEq_modT _ i _
      (fun tm => parentApply_name _ tm)), ?_⟩
    intro j
    refine Eq.trans (onflg_modT_other ?_ j) rfl
    exact fun tm => parentApply_onflg _ tm

theorem coreOn_update_stats (cfg : Config) (i : ℕ) (tp1 : ℚ) (usr sys : ℤ)
    (s : GState) :
    CoreEq s (update_stats cfg i tp1 usr sys s).1 ∧
    ∀ j, (((update_stats cfg i tp1 usr sys s).1).timer j).onflg = true →
      (s.timer j).onflg = true := by
  by_cases hneg : s.stackidx - 1 < -1
  · rw [update_stats_err cfg i tp1 usr sys s hneg]
    constructor
    · exact coreEq_trans
        (coreEq_modT s i (fun tm => { tm with onflg := false })
          (fun tm => rfl))
        (coreEq_of_core rfl rfl)
    · intro j h
      have h2 : ((modT s i (fun tm => { tm with onflg := false })).timer
          j).onflg = true := h
      exact onflg_modT_imp (fun tm hh => absurd hh (by simp)) j h2
  · rw [update_stats_ok cfg i tp1 usr sys s hneg]
    constructor
    · refine coreEq_trans
        (coreEq_modT s i (fun tm =>
          let tm := { tm with onflg := false }
          let tm := if cfg.wall_enabled = true then wallApply tp1 tm else tm
          if cfg.cpu_enabled = true then cpuApply usr sys tm else tm) ?_)
        (coreEq_of_core rfl rfl)
      intro tm
      show (if cfg.cpu_enabled = true
          then cpuApply usr sys
            (if cfg.wall_enabled = true then wallApply tp1 { tm with onflg := false }
             else { tm with onflg := false })
          else (if cfg.wall_enabled = true then wallApply tp1 { tm with onflg := false }
                else { tm with onflg := false })).name = tm.name
      split_ifs <;> rfl
    · intro j h
      have h2 : ((modT s i (fun tm =>
          let tm := { tm with onflg := false }
          let tm := if cfg.wall_enabled = true then wallApply tp1 tm else tm
          if cfg.cpu_enabled = true then cpuApply usr sys tm else tm)).timer
          j).onflg = true := h
      refine onflg_modT_imp ?_ j h2
      intro tm hh
      have hoff : (if cfg.cpu_enabled = true
          then cpuApply usr sys
            (if cfg.wall_enabled = true then wallApply tp1 { tm with onflg := false }
             else { tm with onflg := false })
          else (if cfg.wall_enabled = true then wallApply tp1 { tm with onflg := false }
                else { tm with onflg := false })).onflg = false := by
        split_ifs <;> rfl
      have hh2 : (false : Bool) = true := by
        rw [← hoff]
        exact hh
      exact absurd hh2 Bool.false_ne_true

theorem stop_part2_zeta (cfg : Config) (i : ℕ) (tp1 : ℚ) (usr sys : ℤ)
    (s : GState) :
    stop_part2 cfg i tp1 usr sys s
      = (if 0 < ((modT s i (fun tm => { tm with count := tm.count + 1 })).timer
            i).recurselvl
         then (modT (modT s i (fun tm => { tm with count := tm.count + 1 })) i
                 (fun tm => { tm with nrecurse := tm.nrecurse + 1,
                                      recurselvl := tm.recurselvl - 1 }),
               Except.ok ())
         else update_stats cfg i tp1 usr sys
                (modT s i (fun tm => { tm with count := tm.count + 1 }))) := rfl

theorem coreOn_stop_part2 (cfg : Config) (i : ℕ) (tp1 : ℚ) (usr sys : ℤ)
    (s : GState) :
    CoreEq s (stop_part2 cfg i tp1 usr sys s).1 ∧
    ∀ j, (((stop_part2 cfg i tp1 usr sys s).1).timer j).onflg = true →
      (s.timer j).onflg = true := by
  rw [stop_part2_zeta]
  split_ifs with hrec
  · constructor
    · exact coreEq_trans
        (coreEq_modT s i (fun tm => { tm with count := tm.count + 1 })
          (fun tm => rfl))
        (coreEq_modT (modT s i (fun tm => { tm with count := tm.count + 1 })) i
          (fun tm => { tm with nrecurse := tm.nrecurse + 1,
                               recurselvl := tm.recurselvl - 1 })
          (fun tm => rfl))
    · intro j h
      have h2 : ((modT (modT s i (fun tm => { tm with count := tm.count + 1 }))
          i (fun tm => { tm with nrecurse := tm.nrecurse + 1,
                                 recurselvl := tm.recurselvl - 1 })).timer
          j).onflg = true := h
      refine onflg_modT_imp ?_ j (onflg_modT_imp ?_ j h2) <;>
        exact fun tm hh => hh
  · have hc := coreOn_update_stats cfg i tp1 usr sys
      (modT s i (fun tm => { tm with count := tm.count + 1 }))
    constructor
    · exact coreEq_trans
        (coreEq_modT s i (fun tm => { tm with count := tm.count + 1 })
          (fun tm => rfl))
        hc.1
    · intro j h
      refine onflg_modT_imp ?_ j (hc.2 j h)
      exact fun tm hh => hh

theorem coreOn_stop_part1 (cfg : Config) (tp1 : ℚ) (usr sys : ℤ)
    (optr : Option ℕ) (enone : GErr) (s : GState) :
    CoreEq s (stop_part1 cfg tp1 usr sys optr enone s).1 ∧
    ∀ j, (((stop_part1 cfg tp1 usr sys optr enone s).1).timer j).onflg = true
      → (s.timer j).onflg = true := by
  unfold stop_part1
  split_ifs with hdl
  · exact ⟨coreEq_of_core rfl rfl, fun j h => h⟩
  · cases optr with
    | none => exact ⟨coreEq_refl s, fun j h => h⟩
    | some i =>
      show CoreEq s (if (s.timer i).onflg = false
            then (s, Except.error GErr.alreadyOff)
            else stop_part2 cfg i tp1 usr sys s).1 ∧
        ∀ j, (((if (s.timer i).onflg = false
            then (s, Except.error GErr.alreadyOff)
            else stop_part2 cfg i tp1 usr sys s).1).timer j).onflg = true →
          (s.timer j).onflg = true
      by_cases hoff : (s.timer i).onflg = false
      · rw [if_pos hoff]
        exact ⟨coreEq_refl s, fun j h => h⟩
      · rw [if_neg hoff]
        exact coreOn_stop_part2 cfg i tp1 usr sys s

theorem hinv_stop_part1 {cfg : Config} {s : GState} {hmap : HMap}
    (tp1 : ℚ) (usr sys : ℤ) (optr : Option ℕ) (enone : GErr)
    (hH : HInv cfg s hmap) :
    HInv cfg (stop_part1 cfg tp1 usr sys optr enone s).1 hmap :=
  hinv_transport (coreOn_stop_part1 cfg tp1 usr sys optr enone s).1
    (coreOn_stop_part1 cfg tp1 usr sys optr enone s).2 hH

theorem stop_part1_state_none (cfg : Config) (tp1 : ℚ) (usr sys : ℤ)
    (e : GErr) (s : GState) :
    (stop_part1 cfg tp1 usr sys none e s).1
      = if cfg.depthlimit < s.stackidx
        then { s with stackidx := s.stackidx - 1 } else s := by
  unfold stop_part1
  split_ifs <;> rfl

theorem stop_part1_state_off (cfg : Config) (tp1 : ℚ) (usr sys : ℤ)
    (i : ℕ) (e : GErr) (s : GState)
    (hoff : (s.timer i).onflg = false) :
    (stop_part1 cfg tp1 usr sys (some i) e s).1
      = if cfg.depthlimit < s.stackidx
        then { s with stackidx := s.stackidx - 1 } else s := by
  unfold stop_part1
  split_ifs with h
  · rfl
  · show (if (s.timer i).onflg = false then (s, Except.error GErr.alreadyOff)
        else stop_part2 cfg i tp1 usr sys s).1 = s
    rw [if_pos hoff]

/-- Stopping through a handle and stopping through the name lookup leave
the same state whenever the handle store is correct: a set handle and the
lookup agree, and an unset handle means the lookup misses or hits an
off region, where both calls bail out before touching the timers. -/
theorem stop_part1_state_eq {cfg : Config} {s : GState} {hmap : HMap}
    (hH : HInv cfg s hmap) (name : List Char) (tp1 : ℚ) (usr sys : ℤ) :
    (stop_part1 cfg tp1 usr sys (hmap name) GErr.badHandle s).1
      = (stop_part1 cfg tp1 usr sys
          (getentry cfg.tablesize s.hashtable s.timers name)
          GErr.unknownTimer s).1 := by
  cases hh : hmap name with
  | some i =>
    rw [(hH name i).1 hh]
    exact rfl
  | none =>
    cases hge : getentry cfg.tablesize s.hashtable s.timers name with
    | none =>
      rw [stop_part1_state_none, stop_part1_state_none]
    | some i =>
      have hoff : (s.timer i).onflg = false := by
        cases ho : (s.timer i).onflg with
        | false => rfl
        | true =>
          have hc := (hH name i).2 hge ho
          rw [hc] at hh
          exact Option.noConfusion hh
      rw [stop_part1_state_none,
        stop_part1_state_off cfg tp1 usr sys i GErr.unknownTimer s hoff]

/-- Starting an already-known, currently-off region keeps the handle store
correct, with the entry index cached under the region's name on success. -/
theorem bisim_part2_found {cfg : Config} {env : Env} {name : List Char}
    {s : GState} {hmap : HMap} {i : ℕ} (hv : Option ℕ)
    (hH : HInv cfg s hmap)
    (hge : getentry cfg.tablesize s.hashtable s.timers name = some i)
    (hvh : hv = hmap name) (hvi : hv.getD i = i) :
    HInv cfg (start_part2 cfg env name (some i) s).1
      (fun nm => if nm = name
        then cacheUpd hv (start_part2 cfg env name (some i) s).2.2
               (start_part2 cfg env name (some i) s).2.1
        else hmap nm) := by
  by_cases hov : MAX_STACK - 1 < s.stackidx + 1
  · rw [start_part2_overflow hov]
    exact hinv_update_self (hinv_transport (coreEq_of_core rfl rfl)
      (fun j h => h) hH) name hvh
  · rw [start_part2_found hov]
    unfold start_part3
    rcases hupd : update_parent_info i { s with stackidx := s.stackidx + 1 }
      with ⟨sU, rU⟩
    have h0 := coreOn_update_parent_info i { s with stackidx := s.stackidx + 1 }
    rw [hupd] at h0
    cases rU with
    | error e =>
      show HInv cfg sU (fun nm => if nm = name then hv else hmap nm)
      refine hinv_update_self (hinv_transport
        (coreEq_trans (coreEq_of_core rfl rfl) h0.1) ?_ hH) name hvh
      intro j hj
      rw [← h0.2 j]
      exact hj
    | ok u =>
      show HInv cfg (update_ptr cfg env i sU)
        (fun nm => if nm = name then some (hv.getD i) else hmap nm)
      have hcU : CoreEq s sU :=
        coreEq_trans (coreEq_of_core rfl rfl) h0.1
      have honU : ∀ j, (sU.timer j).onflg = (s.timer j).onflg :=
        fun j => h0.2 j
      have hcF : CoreEq s (update_ptr cfg env i sU) :=
        coreEq_trans hcU (coreEq_update_ptr cfg env i sU)
      have hgF : ∀ nm', getentry cfg.tablesize
          (update_ptr cfg env i sU).hashtable
          (update_ptr cfg env i sU).timers nm'
          = getentry cfg.tablesize s.hashtable s.timers nm' :=
        fun nm' => getentry_coreEq hcF nm'
      have honF : ∀ j, j ≠ i →
          ((update_ptr cfg env i sU).timer j).onflg = (s.timer j).onflg := by
        intro j hj
        rw [timer_update_ptr_other cfg env i sU hj]
        exact honU j
      intro nm j
      constructor
      · intro h
        have h3 : (if nm = name then some (hv.getD i) else hmap nm)
            = some j := h
        by_cases hnm : nm = name
        · rw [if_pos hnm] at h3
          have hj2 : hv.getD i = j := Option.some.inj h3
          rw [hgF nm, hnm, hge, ← hj2, hvi]
        · rw [if_neg hnm] at h3
          rw [hgF nm]
          exact (hH nm j).1 h3
      · intro h1 h2
        rw [hgF nm] at h1
        by_cases hji : j = i
        · subst hji
          have hn1 : (s.timers.getD j default).name = nm := getentry_name h1
          have hn2 : (s.timers.getD j default).name = name := getentry_name hge
          have hnm : nm = name := by rw [← hn1, hn2]
          show (if nm = name then some (hv.getD j) else hmap nm) = some j
          rw [if_pos hnm, hvi]
        · have h2s : (s.timer j).onflg = true := by
            rw [← honF j hji]
            exact h2
          have hmO := (hH nm j).2 h1 h2s
          have hnm : ¬ nm = name := by
            intro he
            rw [he, hge] at h1
            exact hji (Option.some.inj h1).symm
          show (if nm = name then some (hv.getD i) else hmap nm) = some j
          rw [if_neg hnm]
          exact hmO

/-- Starting an unknown region interns it and keeps the handle store
correct, with the fresh entry's index cached under the region's name on
success.  Needs the queried name short enough not to be truncated. -/
theorem bisim_part2_new {cfg : Config} {env : Env} {name : List Char}
    {s : GState} {hmap : HMap} (hv : Option ℕ)
    (hinv : StateInv cfg env s) (hH : HInv cfg s hmap)
    (hns : name.length ≤ MAX_CHARS)
    (hgnone : getentry cfg.tablesize s.hashtable s.timers name = none)
    (hmn : hmap name = none) (hvh : hv = hmap name) :
    HInv cfg (start_part2 cfg env name none s).1
      (fun nm => if nm = name
        then cacheUpd hv (start_part2 cfg env name none s).2.2
               (start_part2 cfg env name none s).2.1
        else hmap nm) := by
  by_cases hov : MAX_STACK - 1 < s.stackidx + 1
  · rw [start_part2_overflow hov]
    exact hinv_update_self (hinv_transport (coreEq_of_core rfl rfl)
      (fun j h => h) hH) name hvh
  · rw [start_part2_new hov]
    unfold start_part3
    generalize hU : update_ll_hash { s with stackidx := s.stackidx + 1 }
      { Timer.zero with name := name.take MAX_CHARS }
      (genhashidx cfg.tablesize name) = U
    have hb2 : ∀ b i2, i2 ∈ s.hashtable b → i2 < s.timers.length :=
      fun b i2 h => (hinv.2 b i2 h).2
    have hht : ∀ b, U.hashtable b
        = (if b = genhashidx cfg.tablesize name
           then s.hashtable b ++ [s.timers.length] else s.hashtable b) := by
      rw [← hU]
      exact fun b => rfl
    have hnames : ∀ j, j < s.timers.length →
        (U.timers.getD j default).name = (s.timers.getD j default).name := by
      rw [← hU]
      intro j hj
      exact congrArg Timer.name (timer_update_ll_hash_lt _ _ _ hj)
    have hnew : (U.timers.getD s.timers.length default).name
        = name.take MAX_CHARS := by
      rw [← hU]
      exact congrArg Timer.name (timer_update_ll_hash_self _ _ _)
    have hgeU : ∀ nm', getentry cfg.tablesize U.hashtable U.timers nm'
        = (getentry cfg.tablesize s.hashtable s.timers nm').or
            (if name.take MAX_CHARS = nm'
             then some s.timers.length else none) :=
      fun nm' => getentry_after_intern hb2 hht hnames hnew nm'
    have htk : name.take MAX_CHARS = name := List.take_of_length_le hns
    have honUlt : ∀ j, j < s.timers.length →
        (U.timer j).onflg = (s.timer j).onflg := by
      rw [← hU]
      intro j hj
      exact congrArg Timer.onflg (timer_update_ll_hash_lt _ _ _ hj)
    have honUL : (U.timer s.timers.length).onflg = false := by
      rw [← hU]
      exact congrArg Timer.onflg (timer_update_ll_hash_self _ _ _)
    have honUgt : ∀ j, s.timers.length < j → (U.timer j).onflg = false := by
      intro j hj
      rw [← hU]
      rw [timer_update_ll_hash_gt { s with stackidx := s.stackidx + 1 }
        { Timer.zero with name := name.take MAX_CHARS }
        (genhashidx cfg.tablesize name)
        (show ({ s with stackidx := s.stackidx + 1 } :
          GState).timers.length < j from hj)]
      rfl
    rcases hupd : update_parent_info s.timers.length U with ⟨sU, rU⟩
    have h0 := coreOn_update_parent_info s.timers.length U
    rw [hupd] at h0
    cases rU with
    | error e =>
      show HInv cfg sU (fun nm => if nm = name then hv else hmap nm)
      have hcU : CoreEq U sU := h0.1
      have honU2 : ∀ j, (sU.timer j).onflg = (U.timer j).onflg :=
        fun j => h0.2 j
      intro nm j
      constructor
      · intro h
        have h3 : (if nm = name then hv else hmap nm) = some j := h
        by_cases hnm : nm = name
        · rw [if_pos hnm, hvh, hmn] at h3
          exact Option.noConfusion h3
        · rw [if_neg hnm] at h3
          have hg := (hH nm j).1 h3
          rw [getentry_coreEq hcU nm, hgeU nm, hg]
          exact rfl
      · intro h1 h2
        rw [getentry_coreEq hcU nm, hgeU nm] at h1
        have h2U : (U.timer j).onflg = true := by
          rw [← honU2 j]
          exact h2
        rcases Nat.lt_trichotomy j s.timers.length with hjlt | hjeq | hjgt
        · have h2s : (s.timer j).onflg = true := by
            rw [← honUlt j hjlt]
            exact h2U
          cases hgs : getentry cfg.tablesize s.hashtable s.timers nm with
          | some v =>
            rw [hgs] at h1
            have h1' : (some v : Option ℕ) = some j := h1
            have hvj : v = j := Option.some.inj h1'
            rw [hvj] at hgs
            have hmO := (hH nm j).2 hgs h2s
            have hnm : ¬ nm = name := by
              intro he
              rw [he, hgnone] at hgs
              exact Option.noConfusion hgs
            show (if nm = name then hv else hmap nm) = some j
            rw [if_neg hnm]
            exact hmO
          | none =>
            rw [hgs] at h1
            have h1' : (if name.take MAX_CHARS = nm
                then some s.timers.length else none) = some j := h1
            by_cases hc : name.take MAX_CHARS = nm
            · rw [if_pos hc] at h1'
              have := Option.some.inj h1'
              omega
            · rw [if_neg hc] at h1'
              exact Option.noConfusion h1'
        · rw [← hjeq] at honUL
          rw [honUL] at h2U
          exact absurd h2U Bool.false_ne_true
        · have hX := honUgt j hjgt
          rw [hX] at h2U
          exact absurd h2U Bool.false_ne_true
    | ok u =>
      show HInv cfg (update_ptr cfg env s.timers.length sU)
        (fun nm => if nm = name
          then some (hv.getD s.timers.length) else hmap nm)
      have hcF : CoreEq U (update_ptr cfg env s.timers.length sU) :=
        coreEq_trans h0.1 (coreEq_update_ptr cfg env s.timers.length sU)
      have hgF : ∀ nm', getentry cfg.tablesize
          (update_ptr cfg env s.timers.length sU).hashtable
          (update_ptr cfg env s.timers.length sU).timers nm'
          = (getentry cfg.tablesize s.hashtable s.timers nm').or
              (if name.take MAX_CHARS = nm'
               then some s.timers.length else none) := by
        intro nm'
        rw [getentry_coreEq hcF nm']
        exact hgeU nm'
      have honF : ∀ j, j ≠ s.timers.length →
          ((update_ptr cfg env s.timers.length sU).timer j).onflg
            = (U.timer j).onflg := by
        intro j hj
        rw [timer_update_ptr_other cfg env s.timers.length sU hj]
        exact h0.2 j
      have hvL : hv.getD s.timers.length = s.timers.length := by
        rw [hvh, hmn]
        rfl
      intro nm j
      constructor
      · intro h
        have h3 : (if nm = name then some (hv.getD s.timers.length)
            else hmap nm) = some j := h
        by_cases hnm : nm = name
        · rw [if_pos hnm, hvL] at h3
          have hjL : s.timers.length = j := Option.some.inj h3
          rw [hgF nm, hnm, hgnone]
          show (if name.take MAX_CHARS = name
              then some s.timers.length else none) = some j
          rw [if_pos htk, hjL]
        · rw [if_neg hnm] at h3
          have hg := (hH nm j).1 h3
          rw [hgF nm, hg]
          exact rfl
      · intro h1 h2
        rw [hgF nm] at h1
        by_cases hjL : j = s.timers.length
        · subst hjL
          cases hgs : getentry cfg.tablesize s.hashtable s.timers nm with
          | some v =>
            rw [hgs] at h1
            have h1' : (some v : Option ℕ) = some s.timers.length := h1
            have hvj := Option.some.inj h1'
            have hb3 := getentry_bounds hinv hgs
            omega
          | none =>
            rw [hgs] at h1
            have h1' : (if name.take MAX_CHARS = nm
                then some s.timers.length else none)
                = some s.timers.length := h1
            by_cases hc : name.take MAX_CHARS = nm
            · have hnm : nm = name := by rw [← hc, htk]
              show (if nm = name then some (hv.getD s.timers.length)
                  else hmap nm) = some s.timers.length
              rw [if_pos hnm, hvL]
            · rw [if_neg hc] at h1'
              exact Option.noConfusion h1'
        · have h2U : (U.timer j).onflg = true := by
            rw [← honF j hjL]
            exact h2
          rcases Nat.lt_trichotomy j s.timers.length with hjlt | hjeq | hjgt
          · have h2s : (s.timer j).onflg = true := by
              rw [← honUlt j hjlt]
              exact h2U
            cases hgs : getentry cfg.tablesize s.hashtable s.timers nm with
            | some v =>
              rw [hgs] at h1
              have h1' : (some v : Option ℕ) = some j := h1
              have hvj : v = j := Option.some.inj h1'
              rw [hvj] at hgs
              have hmO := (hH nm j).2 hgs h2s
              have hnm : ¬ nm = name := by
                intro he
                rw [he, hgnone] at hgs
                exact Option.noConfusion hgs
              show (if nm = name then some (hv.getD s.timers.length)
                  else hmap nm) = some j
              rw [if_neg hnm]
              exact hmO
            | none =>
              rw [hgs] at h1
              have h1' : (if name.take MAX_CHARS = nm
                  then some s.timers.length else none) = some j := h1
              by_cases hc : name.take MAX_CHARS = nm
              · rw [if_pos hc] at h1'
                exact absurd (Option.some.inj h1') (by omega)
              · rw [if_neg hc] at h1'
                exact Option.noConfusion h1'
          · exact absurd hjeq hjL
          · have hX := honUgt j hjgt
            rw [hX] at h2U
            exact absurd h2U Bool.false_ne_true

theorem hinv_start_recurse {cfg : Config} {s : GState} {hmap : HMap}
    (hH : HInv cfg s hmap) (i : ℕ) (name : List Char) {v : Option ℕ}
    (hv : v = hmap name) :
    HInv cfg (modT s i (fun tm => { tm with recurselvl := tm.recurselvl + 1 }))
      (fun nm => if nm = name then v else hmap nm) := by
  have hc : CoreEq s (modT s i
      (fun tm => { tm with recurselvl := tm.recurselvl + 1 })) :=
    coreEq_modT s i (fun tm => { tm with recurselvl := tm.recurselvl + 1 })
      (fun tm => rfl)
  have hon2 : ∀ j, ((modT s i
      (fun tm => { tm with recurselvl := tm.recurselvl + 1 })).timer
        j).onflg = true → (s.timer j).onflg = true := by
    intro j h
    refine onflg_modT_imp ?_ j h
    exact fun tm hh => hh
  exact hinv_update_self (hinv_transport hc hon2 hH) name hv

/-- One `GPTLstart_handle` call reaches the same state as the
corresponding `GPTLstart` call, and the updated handle store stays
correct over the state `GPTLstart` reaches. -/
theorem bisim_start {cfg : Config} {env : Env} {name : List Char}
    {s : GState} {hmap : HMap}
    (hinv : StateInv cfg env s) (hH : HInv cfg s hmap)
    (hns : name.length ≤ MAX_CHARS) :
    (GPTLstart_handle cfg env name (hmap name) s).1
      = (GPTLstart cfg env name s).1 ∧
    HInv cfg (GPTLstart cfg env name s).1
      (fun nm => if nm = name
        then (GPTLstart_handle cfg env name (hmap name) s).2.2
        else hmap nm) := by
  unfold GPTLstart GPTLstart_handle
  split_ifs with hd hdl
  · exact ⟨rfl, hinv_update_self hH name rfl⟩
  · exact ⟨rfl, hinv_update_self (hinv_transport (coreEq_of_core rfl rfl)
      (fun j h => h) hH) name rfl⟩
  · cases hh : hmap name with
    | some i =>
      have hge : getentry cfg.tablesize s.hashtable s.timers name = some i :=
        (hH name i).1 hh
      simp only [hge]
      by_cases hon : (s.timer i).onflg = true
      · simp only [hon, if_pos]
        exact ⟨trivial, hinv_start_recurse hH i name hh.symm⟩
      · have hoff : (s.timer i).onflg = false := by
          simpa using hon
        simp only [hoff, Bool.false_eq_true, ite_false]
        refine ⟨trivial, ?_⟩
        exact bisim_part2_found (some i) hH hge hh.symm rfl
    | none =>
      cases hopt : getentry cfg.tablesize s.hashtable s.timers name with
      | some i =>
        simp only [hopt]
        by_cases hon : (s.timer i).onflg = true
        · simp only [hon, if_pos]
          exact ⟨trivial, hinv_start_recurse hH i name hh.symm⟩
        · have hoff : (s.timer i).onflg = false := by
            simpa using hon
          simp only [hoff, Bool.false_eq_true, ite_false]
          refine ⟨trivial, ?_⟩
          exact bisim_part2_found none hH hopt hh.symm rfl
      | none =>
        simp only [hopt]
        refine ⟨trivial, ?_⟩
        exact bisim_part2_new none hinv hH hns hopt hh hh.symm

/-- One `GPTLstop_handle` call reaches the same state as the
corresponding `GPTLstop` call, and the (unchanged) handle store stays
correct over the state `GPTLstop` reaches. -/
theorem bisim_stop {cfg : Config} {env : Env} (name : List Char)
    {s : GState} {hmap : HMap} (hH : HInv cfg s hmap) :
    (GPTLstop_handle cfg env (hmap name) s).1 = (GPTLstop cfg env name s).1 ∧
    HInv cfg (GPTLstop cfg env name s).1 hmap := by
  by_cases hd : cfg.disabled = true
  · simp only [GPTLstop, GPTLstop_handle, hd, ite_true]
    exact ⟨trivial, hH⟩
  · simp only [GPTLstop, GPTLstop_handle, if_neg hd, stop_samples_spec]
    have hH2 : HInv cfg { s with
        wpos := s.wpos + (if cfg.wall_enabled = true then 1 else 0),
        cpos := s.cpos + (if cfg.cpu_enabled = true then 1 else 0) } hmap := hH
    exact ⟨stop_part1_state_eq hH2 name _ _ _,
      hinv_stop_part1 _ _ _ _ _ hH2⟩

/-- One handle-based call reaches the same state as the corresponding
name-based call and keeps the handle store correct, provided the name is
short enough not to be truncated. -/
theorem bisim_stepOp {cfg : Config} {env : Env} {s : GState} {hmap : HMap}
    (hinv : StateInv cfg env s) (hH : HInv cfg s hmap) (op : Op)
    (hns : (Op.opname op).length ≤ MAX_CHARS) :
    (stepOpH cfg env op s hmap).1.1 = (stepOp cfg env op s).1 ∧
    HInv cfg (stepOp cfg env op s).1 (stepOpH cfg env op s hmap).1.2 := by
  cases op with
  | start name =>
    have hb := bisim_start hinv hH hns
    exact ⟨hb.1, hb.2⟩
  | stop name =>
    have hb := @bisim_stop cfg env name s hmap hH
    exact ⟨hb.1, hb.2⟩

/-- Running a call sequence through the handle API from any state with a
correct handle store reaches the same state as the name-based run. -/
theorem bisim_runFrom {cfg : Config} {env : Env} (hm : Monotone env.wtime)
    (ops : List Op) (hns : ∀ op ∈ ops, (Op.opname op).length ≤ MAX_CHARS) :
    ∀ s hmap, StateInv cfg env s → HInv cfg s hmap →
      (runFromH cfg env (s, hmap) ops).1.1 = (runFrom cfg env s ops).1 := by
  induction ops with
  | nil => intro s hmap _ _; rfl
  | cons op rest ih =>
    intro s hmap hinv hH
    have hop := hns op (List.mem_cons_self op rest)
    have hstep := bisim_stepOp hinv hH op hop
    have hinv2 := stateInv_stepOp hm hinv op
    have ihh := ih (fun o ho => hns o (List.mem_cons_of_mem op ho))
      (stepOp cfg env op s).1 (stepOpH cfg env op s hmap).1.2 hinv2 hstep.2
    show (runFromH cfg env (stepOpH cfg env op s hmap).1 rest).1.1
        = (runFrom cfg env (stepOp cfg env op s).1 rest).1
    have hpair : (stepOpH cfg env op s hmap).1
        = ((stepOp cfg env op s).1, (stepOpH cfg env op s hmap).1.2) :=
      Prod.ext hstep.1 rfl
    rw [hpair]
    exact ihh

theorem hinv_initState (cfg : Config) :
    HInv cfg initState (fun _ => none) := by
  intro nm i
  constructor
  · intro h
    exact Option.noConfusion h
  · intro h1 _
    have h2 : (none : Option ℕ) = some i := h1
    exact Option.noConfusion h2

/-- Claim C8: for every call sequence whose region names fit in
`MAX_CHARS` bytes, replacing each name-based start/stop with the
handle-based variant (handle initially null, the cached value reused
thereafter) reaches exactly the same per-thread state on a freshly
initialized thread, and hence the same per-region statistics (count,
nrecurse, wallclock accum/min/max, CPU totals).  The name-length
restriction is necessary: see the counterexample. -/
theorem C8_handle_equivalence (cfg : Config) (env : Env)
    (hm : Monotone env.wtime) (ops : List Op)
    (hns : ∀ op ∈ ops, (Op.opname op).length ≤ MAX_CHARS) :
    (runH cfg env ops).1.1 = (run cfg env ops).1 :=
  bisim_runFrom hm ops hns initState (fun _ => none)
    (stateInv_initState cfg env) (hinv_initState cfg)

theorem C8_handle_equivalence_witness :
    (runH Config.default envId [Op.start rName, Op.stop rName]).1.1
      = (run Config.default envId [Op.start rName, Op.stop rName]).1 :=
  C8_handle_equivalence Config.default envId envId_mono
    [Op.start rName, Op.stop rName] (by decide)

/-- Counterexample to the unrestricted form of claim C8: with a 64-byte
region name, the handle-based pair start/stop completes (two successes,
`count = 1`), while the name-based stop fails with `unknown_timer` and
leaves `count = 0`, because the stored name was truncated to `MAX_CHARS`
bytes and the full-name lookup of `GPTLstop` misses it — so the two APIs
do not agree on every balanced sequence. -/
theorem C8_counterexample :
    (((runH Config.default envId
        [Op.start (List.replicate 64 'a'), Op.stop (List.replicate 64 'a')]
      ).1.1.timer 1).count = 1 ∧
     (runH Config.default envId
        [Op.start (List.replicate 64 'a'), Op.stop (List.replicate 64 'a')]
      ).2 = [Except.ok (), Except.ok ()]) ∧
    (((run Config.default envId
        [Op.start (List.replicate 64 'a'), Op.stop (List.replicate 64 'a')]
      ).1.timer 1).count = 0 ∧
     (run Config.default envId
        [Op.start (List.replicate 64 'a'), Op.stop (List.replicate 64 'a')]
      ).2 = [Except.ok (), Except.error GErr.unknownTimer]) := by
  with_unfolding_all decide

end GPTL2P
